import Mathlib

/-!
Verification development for the `algebratools` repository
(expression engine: parser / canonicalizer / renderer / evaluator,
and the domain/set algebra: discrete sets, intervals, unions).

The definitions below are shallow embeddings of the Python sources under
`src/`.  Strings are modelled as `List Char`, Python `while` loops as
fuel-indexed recursion, raised exceptions as `Except` errors, and the
complex floating values as exact rationals on the fragment the claims
exercise (small integer arithmetic, where CPython float/complex
arithmetic is exact).
-/

namespace AlgebraTools

/-! ## Extended reals (Python float semantics for the set algebra)

`AlgSet` and its subclasses compare `value.real` of `NumericAlgExp`
instances, which are Python floats: ordinary rationals extended with
`inf`, `-inf` and `nan` (`nan` compares false under every comparison,
including equality). -/

/-- A Python float value as used by the set algebra: a rational, one of the
two infinities, or `nan`. -/
inductive XR : Type where
  | nan : XR
  | ninf : XR
  | fin : ℚ → XR
  | pinf : XR
  deriving DecidableEq, Repr

/-- Python `<` on floats: `nan` compares false against everything. -/
def xlt : XR → XR → Bool
  | XR.nan, _ => false
  | _, XR.nan => false
  | XR.ninf, XR.ninf => false
  | XR.ninf, _ => true
  | XR.fin _, XR.ninf => false
  | XR.fin a, XR.fin b => decide (a < b)
  | XR.fin _, XR.pinf => true
  | XR.pinf, _ => false

/-- Python `==` on floats: `nan == nan` is false. -/
def xeq : XR → XR → Bool
  | XR.nan, _ => false
  | _, XR.nan => false
  | XR.ninf, XR.ninf => true
  | XR.pinf, XR.pinf => true
  | XR.fin a, XR.fin b => decide (a = b)
  | _, _ => false

/-- Python `<=` on floats. -/
def xle (a b : XR) : Bool := xlt a b || xeq a b

/-! ## Numeric expressions as seen by the set algebra

The set algebra (`algsettools/*.py`) only ever consults three pieces of a
`NumericAlgExp` bound or element: `value.real`, `value.imag` and
`has_imag()`.  We therefore embed such an expression by these three
observations (the concrete elements used by the claims are numeric atoms,
for which they determine all behaviour the set code reads). -/

/-- A `NumericAlgExp` instance as observed by `algsettools`:
its complex value (`re`, `im`) and its `has_imag()` flag. -/
structure SNum : Type where
  re : XR
  im : XR
  hasImag : Bool
  deriving DecidableEq, Repr

/-- A finite integer-valued numeric atom (e.g. `NumericAtomicAlgExp("5")`). -/
def snum (n : ℤ) : SNum := ⟨XR.fin n, XR.fin 0, false⟩

/-- `NumericAlgExp.__eq__` between two expressions: full complex value
equality (`self.value == other.value`). -/
def eqN (a b : SNum) : Bool := xeq a.re b.re && xeq a.im b.im

/-- Error kinds raised by the set algebra.  Each constructor corresponds to
one `assert`/`raise` site (an `AssertionError` or `ValueError` with the
named message) or, for `tupleCallTypeError`, to the `TypeError` produced
by `AlgSet._filter_number` (see `filterSrc`). -/
inductive SErr : Type where
  | tupleCallTypeError : SErr
  | cannotImag : SErr
  | cannotNan : SErr
  | wrongOrdering : SErr
  | mustBeClosed : SErr
  | atLeastTwoSetsInUnion : SErr
  | unionMustContainInterval : SErr
  | atLeastTwoForIntersection : SErr
  | atLeastTwoForUnion : SErr
  | intersectionNotRecognized : SErr
  | setMustBeInstance : SErr
  | noneReturn : SErr
  deriving DecidableEq, Repr

/-- Which of the set-algebra errors are Python `AssertionError`s (the only
kind caught by `AlgSet.__union_discrete_union`'s `except AssertionError`). -/
def isAssertErr : SErr → Bool
  | SErr.tupleCallTypeError => false
  | SErr.intersectionNotRecognized => false
  | SErr.noneReturn => false
  | _ => true

/-- The spec's `InvalidSetConstruction` error kind (spec section 7: interval
with reversed/invalid bounds, non-real or `nan` bounds, union with fewer
than two effective parts or no interval member). -/
def isInvalidSetConstruction : SErr → Bool
  | SErr.cannotImag => true
  | SErr.cannotNan => true
  | SErr.wrongOrdering => true
  | SErr.mustBeClosed => true
  | SErr.atLeastTwoSetsInUnion => true
  | SErr.unionMustContainInterval => true
  | _ => false

/-- Input to `AlgSet._filter_number`: either an existing `NumericAlgExp`
instance, or a raw Python number (the `value.real` floats the set code
passes when it rebuilds sets from computed bounds). -/
inductive FilterIn : Type where
  | exp : SNum → FilterIn
  | raw : XR → FilterIn

/-- A filtering function standing for `AlgSet._filter_number`. -/
def FilterFn : Type := FilterIn → Except SErr SNum

/-- `AlgSet._filter_number` as written in `algsettools/algset.py` (lines
71-79): an existing `NumericAlgExp` is returned unchanged; any other value
is passed to `AlgExp.initializer(number, (NumericAtomicAlgExp,
NumericCompositeAlgExp))`.  Because `initializer` takes its candidate
classes as `*args`, the tuple itself becomes the single candidate, the
loop calls the tuple as if it were a constructor, and Python raises
`TypeError: 'tuple' object is not callable`, which no `except` clause in
the package catches. -/
def filterSrc : FilterFn
  | FilterIn.exp n => Except.ok n
  | FilterIn.raw _ => Except.error SErr.tupleCallTypeError

/-- Modelled from the spec: section 4.3's polymorphic constructor applied to
the two numeric kinds, i.e. what `_filter_number` evidently intends
(every sibling call site unpacks the candidate classes): a raw real number
is turned into the numeric atom with that value.  Used to exhibit the
intended behaviour next to the shipped one. -/
def filterIntended : FilterFn
  | FilterIn.exp n => Except.ok n
  | FilterIn.raw x => Except.ok ⟨x, XR.fin 0, false⟩

/-! ## Interval sets -/

/-- `IntervalAlgSet`: two bounds plus the two closedness flags. -/
structure IntervalSet : Type where
  lo : SNum
  hi : SNum
  lc : Bool
  rc : Bool
  deriving DecidableEq, Repr

/-- `IntervalAlgSet._filter_number` during construction: the base filter,
then the no-imaginary assert (`has_no_limits()` is vacuously false while
the limits are still unset) and the `nan` assert
(`real_value < 0 or real_value >= 0`). -/
def intervalFilterCtor (F : FilterFn) (x : FilterIn) : Except SErr SNum :=
  match F x with
  | Except.error e => Except.error e
  | Except.ok n =>
    if n.hasImag then Except.error SErr.cannotImag
    else if !(xlt n.re (XR.fin 0) || xle (XR.fin 0) n.re) then Except.error SErr.cannotNan
    else Except.ok n

/-- `IntervalAlgSet` construction from two bounds and the closedness flags
(`_correct_content`, `intervalalgset.py` lines 124-133): filter both
bounds, assert the ordering `lower.real <= upper.real`, and for equal real
parts require the interval to be closed on both sides. -/
def mkInterval (F : FilterFn) (a b : FilterIn) (lc rc : Bool) :
    Except SErr IntervalSet :=
  match intervalFilterCtor F a with
  | Except.error e => Except.error e
  | Except.ok lo =>
    match intervalFilterCtor F b with
    | Except.error e => Except.error e
    | Except.ok hi =>
      if !(xle lo.re hi.re) then Except.error SErr.wrongOrdering
      else if xeq lo.re hi.re && !(lc && rc) then Except.error SErr.mustBeClosed
      else Except.ok ⟨lo, hi, lc, rc⟩

/-- `IntervalAlgSet.has_no_limits`: both limits equal to `complex("-inf")`
resp. `complex("inf")` (full complex equality). -/
def hasNoLimits (I : IntervalSet) : Bool :=
  (xeq I.lo.re XR.ninf && xeq I.lo.im (XR.fin 0)) &&
    (xeq I.hi.re XR.pinf && xeq I.hi.im (XR.fin 0))

/-- `IntervalAlgSet.is_one_number`: `lower_limit == upper_limit`
(expression equality, i.e. full complex value equality). -/
def isOneNumber (I : IntervalSet) : Bool := eqN I.lo I.hi

/-- `IntervalAlgSet.__contains__` for an expression item: the member filter
(`has_no_limits() or not has_imag()`, then the `nan` assert) runs inside a
`try` whose `AssertionError` handler returns `False`; then strict
betweenness on real parts, or value equality with a closed limit. -/
def containsI (I : IntervalSet) (n : SNum) : Bool :=
  if !(hasNoLimits I || !n.hasImag) then false
  else if !(xlt n.re (XR.fin 0) || xle (XR.fin 0) n.re) then false
  else if xlt I.lo.re n.re && xlt n.re I.hi.re then true
  else if (xeq I.lo.re n.re && xeq I.lo.im n.im) && I.lc then true
  else if (xeq I.hi.re n.re && xeq I.hi.im n.im) && I.rc then true
  else false

/-! ## Discrete sets -/

/-- `DiscreteAlgSet`: the ordered content list. -/
abbrev DiscreteSet : Type := List SNum

/-- `DiscreteAlgSet._correct_content`: drop every element equal (by value)
to an earlier one, keeping first occurrences in order. -/
def dedupDiscrete (l : List SNum) : List SNum :=
  l.foldl (fun acc n => if acc.any (fun m => eqN m n) then acc else acc ++ [n]) []

/-- `DiscreteAlgSet` construction from a list of numbers: filter each, then
deduplicate. -/
def mkDiscrete (F : FilterFn) (xs : List FilterIn) : Except SErr DiscreteSet := do
  let ns ← xs.mapM F
  Except.ok (dedupDiscrete ns)

/-- `DiscreteAlgSet.__contains__` for an expression item (the filter
passes an expression through, so membership is value equality with some
element). -/
def containsD (d : DiscreteSet) (n : SNum) : Bool := d.any (fun m => eqN m n)

/-- `DiscreteAlgSet.add` for an expression: append unless an equal value is
already present. -/
def discreteAdd (d : DiscreteSet) (n : SNum) : DiscreteSet :=
  if containsD d n then d else d ++ [n]

/-- `AlgSet._union_discrete_sets`: sort the two sets by length (stable, so
the first argument wins ties), deep-copy the larger and `add` each element
of the smaller. -/
def unionDiscrete (d1 d2 : DiscreteSet) : DiscreteSet :=
  let p := if d1.length ≤ d2.length then (d1, d2) else (d2, d1)
  p.1.foldl discreteAdd p.2

/-- `AlgSet.__intersect_discrete_sets`: keep the elements of the smaller
set that occur in the larger. -/
def intersectDiscretes (d1 d2 : DiscreteSet) : DiscreteSet :=
  let p := if d1.length ≤ d2.length then (d1, d2) else (d2, d1)
  p.1.filter (fun n => containsD p.2 n)

/-- `AlgSet.__intersect_discrete_interval`: keep the discrete elements that
are members of the interval. -/
def intersectDiscreteInterval (d : DiscreteSet) (I : IntervalSet) : DiscreteSet :=
  d.filter (fun n => containsI I n)

/-! ## Interval relationship classification -/

/-- The `Intersections` enumeration (`algsettools/intersections.py`). -/
inductive IType : Type where
  | empty : IType
  | oneNumber : IType
  | overlapHalf : IType
  | innerLeftNoLower : IType
  | innerLeft : IType
  | innerOverlap : IType
  | eqNoLimits : IType
  | eqNoLower : IType
  | eqNoUpper : IType
  | eqBoth : IType
  | innerRightNoUpper : IType
  | innerRight : IType
  | unknown : IType
  deriving DecidableEq, Repr

/-- `AlgSet._intersection_type` (`algset.py` lines 226-268), the
12-case classification of a pair of intervals by their real bounds and
closedness flags (`overlapHalf` stands for the source's partial-overlap
case). -/
def intersectionType (i1 i2 : IntervalSet) : IType :=
  let l1 := i1.lo.re; let u1 := i1.hi.re
  let l2 := i2.lo.re; let u2 := i2.hi.re
  let l1c := i1.lc; let u1c := i1.rc
  let l2c := i2.lc; let u2c := i2.rc
  if xlt u1 l2 || xlt u2 l1 then IType.empty
  else if xeq u1 l2 || xeq u2 l1 then
    if (xeq u1 l2 && u1c && l2c) || (xeq u2 l1 && u2c && l1c) then IType.oneNumber
    else IType.empty
  else if xeq l1 u1 || xeq l2 u2 then IType.oneNumber
  else if (xlt l1 l2 && xlt u2 u1) || (xlt l2 l1 && xlt u1 u2) then IType.innerOverlap
  else if (xlt l1 l2 && xlt l2 u1 && xlt u1 u2) ||
      (xlt l2 l1 && xlt l1 u2 && xlt u2 u1) then IType.overlapHalf
  else if (xeq l1 l2 && xlt u1 u2) || (xeq l2 l1 && xlt u2 u1) then
    if l1c && l2c then IType.innerLeft else IType.innerLeftNoLower
  else if xeq l1 l2 && xeq u1 u2 then
    if l1c && l2c then
      if u1c && u2c then IType.eqBoth else IType.eqNoUpper
    else if u1c && u2c then IType.eqNoLower
    else IType.eqNoLimits
  else if (xlt l1 l2 && xeq u1 u2) || (xlt l2 l1 && xeq u2 u1) then
    if u1c && u2c then IType.innerRight else IType.innerRightNoUpper
  else IType.unknown

/-- Results of set operations: a discrete set, an interval, or a union
(content list: possibly a leading discrete set, then intervals). -/
inductive SetPart : Type where
  | pd : DiscreteSet → SetPart
  | pi : IntervalSet → SetPart
  deriving DecidableEq, Repr

/-- A concrete `AlgSet` value. -/
inductive SetVal : Type where
  | sd : DiscreteSet → SetVal
  | si : IntervalSet → SetVal
  | su : List SetPart → SetVal
  deriving DecidableEq, Repr

/-- `AlgSet.__intersect_intervals` (`algset.py` lines 395-462): classify
and produce the per-case result set.  Every branch that rebuilds a set
from computed real bounds goes through the filter `F` (the source passes
raw floats there).  Falling off a case without returning is modelled by
`noneReturn`. -/
def intersectIntervals (F : FilterFn) (i1 i2 : IntervalSet) : Except SErr SetVal :=
  let l1 := i1.lo.re; let u1 := i1.hi.re
  let l2 := i2.lo.re; let u2 := i2.hi.re
  let l1c := i1.lc; let u1c := i1.rc
  let l2c := i2.lc; let u2c := i2.rc
  match intersectionType i1 i2 with
  | IType.empty => Except.ok (SetVal.sd [])
  | IType.oneNumber =>
    if isOneNumber i1 then (mkDiscrete F [FilterIn.raw l1]).map SetVal.sd
    else if isOneNumber i2 then (mkDiscrete F [FilterIn.raw l2]).map SetVal.sd
    else if xeq u1 l2 then (mkDiscrete F [FilterIn.raw u1]).map SetVal.sd
    else if xeq u2 l1 then (mkDiscrete F [FilterIn.raw l1]).map SetVal.sd
    else Except.error SErr.noneReturn
  | IType.overlapHalf =>
    if xlt l1 l2 && (xlt l2 u1 && xlt u1 u2) then
      (mkInterval F (FilterIn.raw l2) (FilterIn.raw u1) l2c u1c).map SetVal.si
    else if xlt l2 l1 && (xlt l1 u2 && xlt u2 u1) then
      (mkInterval F (FilterIn.raw l1) (FilterIn.raw u2) l1c u2c).map SetVal.si
    else Except.error SErr.noneReturn
  | IType.innerLeftNoLower =>
    if xlt u1 u2 then
      (mkInterval F (FilterIn.raw l1) (FilterIn.raw u1) false u1c).map SetVal.si
    else if xlt u2 u1 then
      (mkInterval F (FilterIn.raw l1) (FilterIn.raw u2) false u2c).map SetVal.si
    else Except.error SErr.noneReturn
  | IType.innerLeft =>
    if xlt u1 u2 then
      (mkInterval F (FilterIn.raw l1) (FilterIn.raw u1) true u1c).map SetVal.si
    else if xlt u2 u1 then
      (mkInterval F (FilterIn.raw l1) (FilterIn.raw u2) true u2c).map SetVal.si
    else Except.error SErr.noneReturn
  | IType.innerOverlap =>
    if xlt l1 l2 && xlt u2 u1 then
      (mkInterval F (FilterIn.raw l2) (FilterIn.raw u2) l2c u2c).map SetVal.si
    else if xlt l2 l1 && xlt u1 u2 then
      (mkInterval F (FilterIn.raw l1) (FilterIn.raw u1) l1c u1c).map SetVal.si
    else Except.error SErr.noneReturn
  | IType.eqNoLimits =>
    (mkInterval F (FilterIn.raw l1) (FilterIn.raw u1) false false).map SetVal.si
  | IType.eqNoLower =>
    (mkInterval F (FilterIn.raw l1) (FilterIn.raw u1) false true).map SetVal.si
  | IType.eqNoUpper =>
    (mkInterval F (FilterIn.raw l1) (FilterIn.raw u1) true false).map SetVal.si
  | IType.eqBoth =>
    (mkInterval F (FilterIn.raw l1) (FilterIn.raw u1) true true).map SetVal.si
  | IType.innerRightNoUpper =>
    if xlt l1 l2 then
      (mkInterval F (FilterIn.raw l2) (FilterIn.raw u1) l2c false).map SetVal.si
    else if xlt l2 l1 then
      (mkInterval F (FilterIn.raw l1) (FilterIn.raw u1) l1c false).map SetVal.si
    else Except.error SErr.noneReturn
  | IType.innerRight =>
    if xlt l1 l2 then
      (mkInterval F (FilterIn.raw l2) (FilterIn.raw u1) l2c true).map SetVal.si
    else if xlt l2 l1 then
      (mkInterval F (FilterIn.raw l1) (FilterIn.raw u1) l1c true).map SetVal.si
    else Except.error SErr.noneReturn
  | _ => Except.error SErr.intersectionNotRecognized

/-! ## Union machinery (`UnionAlgSet` and `AlgSet.union`) -/

/-- `AlgSet._union_of_intersectioned_intervals` (`algset.py` lines
124-187): the per-case bound computation for the union of two
intervals whose classification is not `empty`.  All rebuilt bounds are the
raw `value.real` floats of the inputs, hence pass through the filter. -/
def unionOfIntersectioned (F : FilterFn) (i1 i2 : IntervalSet) :
    Except SErr IntervalSet :=
  let l1 := i1.lo.re; let u1 := i1.hi.re
  let l2 := i2.lo.re; let u2 := i2.hi.re
  let l1c := i1.lc; let u1c := i1.rc
  let l2c := i2.lc; let u2c := i2.rc
  let lOr := l1c || l2c
  let uOr := u1c || u2c
  match intersectionType i1 i2 with
  | IType.oneNumber =>
    if xeq u1 l2 then mkInterval F (FilterIn.raw l1) (FilterIn.raw u2) l1c u2c
    else if xeq u2 l1 then mkInterval F (FilterIn.raw l2) (FilterIn.raw u1) l2c u1c
    else Except.error SErr.noneReturn
  | IType.overlapHalf =>
    if xlt l1 l2 && (xlt l2 u1 && xlt u1 u2) then
      mkInterval F (FilterIn.raw l1) (FilterIn.raw u2) l1c u2c
    else if xlt l2 l1 && (xlt l1 u2 && xlt u2 u1) then
      mkInterval F (FilterIn.raw l2) (FilterIn.raw u1) l2c u1c
    else Except.error SErr.noneReturn
  | IType.innerLeftNoLower =>
    if xlt u1 u2 then mkInterval F (FilterIn.raw l1) (FilterIn.raw u2) lOr u2c
    else if xlt u2 u1 then mkInterval F (FilterIn.raw l1) (FilterIn.raw u1) lOr u1c
    else Except.error SErr.noneReturn
  | IType.innerLeft =>
    if xlt u1 u2 then mkInterval F (FilterIn.raw l1) (FilterIn.raw u2) true u2c
    else if xlt u2 u1 then mkInterval F (FilterIn.raw l1) (FilterIn.raw u1) true u1c
    else Except.error SErr.noneReturn
  | IType.innerOverlap =>
    if xlt l1 l2 && xlt u2 u1 then mkInterval F (FilterIn.raw l1) (FilterIn.raw u1) l1c u1c
    else if xlt l2 l1 && xlt u1 u2 then mkInterval F (FilterIn.raw l2) (FilterIn.raw u2) l2c u2c
    else Except.error SErr.noneReturn
  | IType.eqNoLimits => mkInterval F (FilterIn.raw l1) (FilterIn.raw u1) lOr uOr
  | IType.eqNoLower => mkInterval F (FilterIn.raw l1) (FilterIn.raw u1) lOr true
  | IType.eqNoUpper => mkInterval F (FilterIn.raw l1) (FilterIn.raw u1) true uOr
  | IType.eqBoth => mkInterval F (FilterIn.raw l1) (FilterIn.raw u1) true true
  | IType.innerRightNoUpper =>
    if xlt l1 l2 then mkInterval F (FilterIn.raw l1) (FilterIn.raw u1) l1c uOr
    else if xlt l2 l1 then mkInterval F (FilterIn.raw l2) (FilterIn.raw u1) l2c uOr
    else Except.error SErr.noneReturn
  | IType.innerRight =>
    if xlt l1 l2 then mkInterval F (FilterIn.raw l1) (FilterIn.raw u1) l1c true
    else if xlt l2 l1 then mkInterval F (FilterIn.raw l2) (FilterIn.raw u1) l2c true
    else Except.error SErr.noneReturn
  | _ => Except.error SErr.intersectionNotRecognized

/-- True for a discrete part. -/
def isDiscretePart : SetPart → Bool
  | SetPart.pd _ => true
  | SetPart.pi _ => false

/-- `AlgSet._single_digit_intervals_to_discrete_sets`: pull the
single-point intervals `[x, x]` out as a discrete set inserted in front
(the new `DiscreteAlgSet(*numbers)` receives expressions, so constructing
it just deduplicates). -/
def singleDigitToDiscrete (parts : List SetPart) : List SetPart :=
  let nums := parts.foldl (fun acc p =>
    match p with
    | SetPart.pi I => if isOneNumber I then acc ++ [I.lo] else acc
    | _ => acc) ([] : List SNum)
  let kept := parts.filter (fun p =>
    match p with
    | SetPart.pi I => !isOneNumber I
    | _ => true)
  if nums.isEmpty then parts else SetPart.pd (dedupDiscrete nums) :: kept

/-- `UnionAlgSet.__simplify_discrete_sets_content`: merge all discrete
members into one, inserted in front when non-empty. -/
def simplifyDiscreteParts (parts : List SetPart) : List SetPart :=
  let merged := parts.foldl (fun acc p =>
    match p with
    | SetPart.pd d => unionDiscrete acc d
    | _ => acc) ([] : DiscreteSet)
  let kept := parts.filter (fun p => !isDiscretePart p)
  if merged.isEmpty then kept else SetPart.pd merged :: kept

/-- The first discrete member of a content list, if any. -/
def firstDiscrete : List SetPart → Option DiscreteSet
  | [] => none
  | SetPart.pd d :: _ => some d
  | _ :: rest => firstDiscrete rest

/-- Replace the first discrete member with `d`, dropping it instead when
`d` was emptied (the source deletes the consumed indexes from the discrete
set in place and removes it from the list if it became empty). -/
def replaceFirstDiscrete : List SetPart → DiscreteSet → List SetPart
  | [], _ => []
  | SetPart.pd _ :: rest, d => if d.isEmpty then rest else SetPart.pd d :: rest
  | p :: rest, d => p :: replaceFirstDiscrete rest d

/-- `AlgSet._include_numbers_from_discrete_set_into_intervals`: for the
first discrete member, try each of its numbers against every interval (in
list order, with the closedness updates visible to later tests): a number
already inside is simply consumed; a number equal to an open limit closes
that limit and is consumed.  Consumed numbers are removed from the
discrete set afterwards. -/
def includeNumbers (parts : List SetPart) : List SetPart :=
  match firstDiscrete parts with
  | none => parts
  | some d =>
    if d.isEmpty then parts
    else
      let step := fun (st : List SetPart × List Nat) (p : SetPart) =>
        match p with
        | SetPart.pd dd => (st.1 ++ [SetPart.pd dd], st.2)
        | SetPart.pi I =>
          let r := d.enum.foldl (fun (st2 : IntervalSet × List Nat) ni =>
            let I2 := st2.1
            if containsI I2 ni.2 || (eqN ni.2 I2.lo || eqN ni.2 I2.hi) then
              let I3 :=
                if containsI I2 ni.2 then I2
                else if eqN ni.2 I2.lo then { I2 with lc := true }
                else { I2 with rc := true }
              (I3, if st2.2.contains ni.1 then st2.2 else st2.2 ++ [ni.1])
            else (I2, st2.2)) (I, st.2)
          (st.1 ++ [SetPart.pi r.1], r.2)
      let res := parts.foldl step ([], [])
      let dNew := (d.enum.filter (fun ni => !res.2.contains ni.1)).map (fun ni => ni.2)
      replaceFirstDiscrete res.1 dNew

/-- `UnionAlgSet.__unite_closed_limits`: collect, for each interval, its
closed lower limit (or, failing that, its closed upper limit); then close
every open limit whose value occurs in that collection. -/
def uniteClosedLimits (parts : List SetPart) : List SetPart :=
  let closed := parts.foldl (fun acc p =>
    match p with
    | SetPart.pi I =>
      if I.lc then acc ++ [I.lo] else if I.rc then acc ++ [I.hi] else acc
    | _ => acc) ([] : List SNum)
  parts.map (fun p =>
    match p with
    | SetPart.pi I =>
      let i1 := if closed.any (fun c => eqN I.lo c) then { I with lc := true } else I
      let i2 := if closed.any (fun c => eqN i1.hi c) then { i1 with rc := true } else i1
      SetPart.pi i2
    | q => q)

/-- The first pair of positions (scanned in the source's order: outer index
ascending from `base`, inner index ascending) holding two intervals whose
classification is not `empty`. -/
def findMergePair (parts : List SetPart) (base : Nat) :
    Option (Nat × Nat × IntervalSet × IntervalSet) :=
  let n := parts.length
  let pairs := (List.range n).flatMap (fun i =>
    (List.range n).filterMap (fun j =>
      if base ≤ i && decide (i < j) then some (i, j) else none))
  pairs.findSome? (fun ij =>
    match parts.get? ij.1, parts.get? ij.2 with
    | some (SetPart.pi i1), some (SetPart.pi i2) =>
      if intersectionType i1 i2 = IType.empty then none
      else some (ij.1, ij.2, i1, i2)
    | _, _ => none)

/-- `UnionAlgSet.__simplify_intervals_content`: repeatedly merge the first
pair of intervals with a non-empty relationship, restarting after each
merge (fuel-indexed; one merge shortens the list, so `length + 1` fuel
reaches the fixpoint). -/
def simplifyIntervalsGo (F : FilterFn) : Nat → List SetPart → Except SErr (List SetPart)
  | 0, parts => Except.ok parts
  | fuel + 1, parts =>
    let base := match parts with
      | SetPart.pd _ :: _ => 1
      | _ => 0
    match findMergePair parts base with
    | none => Except.ok parts
    | some (i, j, i1, i2) => do
      let merged ← unionOfIntersectioned F i1 i2
      let parts2 := (parts.set i (SetPart.pi merged)).eraseIdx j
      simplifyIntervalsGo F fuel parts2

/-- `UnionAlgSet._correct_content` (`unionalgset.py` lines 70-83) together
with `_init_check`: the at-least-two-arguments assert, the single-point
extraction, the must-contain-interval assert, discrete merging, discrete
absorption, limit unification, interval merging, and the three
at-least-two-sets asserts. -/
def mkUnion (F : FilterFn) (args : List SetPart) : Except SErr (List SetPart) :=
  if args.length ≤ 1 then Except.error SErr.atLeastTwoSetsInUnion
  else
    let parts := singleDigitToDiscrete args
    if !(parts.any (fun p => !isDiscretePart p)) then
      Except.error SErr.unionMustContainInterval
    else
      let parts := simplifyDiscreteParts parts
      if parts.length ≤ 1 then Except.error SErr.atLeastTwoSetsInUnion
      else
        let parts := includeNumbers parts
        if parts.length ≤ 1 then Except.error SErr.atLeastTwoSetsInUnion
        else
          let parts := uniteClosedLimits parts
          match simplifyIntervalsGo F (parts.length + 1) parts with
          | Except.error e => Except.error e
          | Except.ok parts2 =>
            if parts2.length ≤ 1 then Except.error SErr.atLeastTwoSetsInUnion
            else Except.ok parts2

/-- `UnionAlgSet.discrete_set`: a (fresh) list holding the leading discrete
member, if present. -/
def discretePartsOf (u : List SetPart) : List DiscreteSet :=
  match u with
  | SetPart.pd d :: _ => [d]
  | _ => []

/-- `UnionAlgSet.intervals`: the interval members. -/
def intervalsOf (u : List SetPart) : List IntervalSet :=
  let rest := match u with
    | SetPart.pd _ :: r => r
    | r => r
  rest.filterMap (fun p =>
    match p with
    | SetPart.pi I => some I
    | _ => none)

/-- Python `min` over the lower limits (first minimum wins). -/
def xminList : List XR → Option XR
  | [] => none
  | x :: rest => some (rest.foldl (fun acc y => if xlt y acc then y else acc) x)

/-- Python `max` over the upper limits (first maximum wins). -/
def xmaxList : List XR → Option XR
  | [] => none
  | x :: rest => some (rest.foldl (fun acc y => if xlt acc y then y else acc) x)

/-- `AlgSet.__min_max_from_intervals` with `min`: the first interval whose
lower limit equals the smallest lower limit (expression-to-float equality,
i.e. real part equal and imaginary part zero). -/
def minLowerInterval (ivs : List IntervalSet) : Option IntervalSet :=
  match xminList (ivs.map (fun I => I.lo.re)) with
  | none => none
  | some m => ivs.find? (fun I => xeq I.lo.re m && xeq I.lo.im (XR.fin 0))

/-- `AlgSet.__min_max_from_intervals` with `max`. -/
def maxUpperInterval (ivs : List IntervalSet) : Option IntervalSet :=
  match xmaxList (ivs.map (fun I => I.hi.re)) with
  | none => none
  | some m => ivs.find? (fun I => xeq I.hi.re m && xeq I.hi.im (XR.fin 0))

/-- `AlgSet.__union_discrete_interval`: single-point extraction, the
all-discrete shortcut, absorption of the discrete points, and the
one-part collapse versus `UnionAlgSet` construction. -/
def unionDiscreteInterval (F : FilterFn) (d : DiscreteSet) (I : IntervalSet) :
    Except SErr SetVal :=
  let parts := singleDigitToDiscrete [SetPart.pd d, SetPart.pi I]
  if parts.all isDiscretePart then
    match parts with
    | [SetPart.pd a, SetPart.pd b] => Except.ok (SetVal.sd (unionDiscrete a b))
    | _ => Except.error SErr.noneReturn
  else
    let parts := includeNumbers parts
    if parts.length = 1 then
      match parts with
      | [SetPart.pi j] => Except.ok (SetVal.si j)
      | _ => Except.error SErr.setMustBeInstance
    else (mkUnion F parts).map SetVal.su

/-- `AlgSet.__union_intervals`: disjoint intervals form a `UnionAlgSet`,
otherwise the pointwise union of the two intervals. -/
def unionIntervals (F : FilterFn) (i1 i2 : IntervalSet) : Except SErr SetVal :=
  if intersectionType i1 i2 = IType.empty then
    (mkUnion F [SetPart.pi i1, SetPart.pi i2]).map SetVal.su
  else (unionOfIntersectioned F i1 i2).map SetVal.si

/-- `AlgSet.__union_discrete_union` (`algset.py` lines 598-620).  When the
union already has a discrete member, the source assigns the merged
discrete into the temporary list returned by the `discrete_set` property,
so the union is returned unchanged.  Otherwise it attempts the
`UnionAlgSet` construction and, on an `AssertionError` (and only that
kind), falls back to the single bridged interval built from the extreme
limits. -/
def unionDiscreteUnion (F : FilterFn) (d : DiscreteSet) (u : List SetPart) :
    Except SErr SetVal :=
  match u with
  | SetPart.pd _ :: _ => Except.ok (SetVal.su u)
  | _ =>
    match mkUnion F (SetPart.pd d :: u) with
    | Except.ok parts => Except.ok (SetVal.su parts)
    | Except.error e =>
      if isAssertErr e then
        match minLowerInterval (intervalsOf u), maxUpperInterval (intervalsOf u) with
        | some mn, some mx =>
          (mkInterval F (FilterIn.exp mn.lo) (FilterIn.exp mx.hi) mn.lc mx.rc).map SetVal.si
        | _, _ => Except.error e
      else Except.error e

/-- `AlgSet.__union_interval_union`: rebuild the union with the interval
appended. -/
def unionIntervalUnion (F : FilterFn) (i : IntervalSet) (u : List SetPart) :
    Except SErr SetVal :=
  (mkUnion F (u ++ [SetPart.pi i])).map SetVal.su

/-- `AlgSet.__union_unions`. -/
def unionUnions (F : FilterFn) (u1 u2 : List SetPart) : Except SErr SetVal :=
  (mkUnion F (u1 ++ (discretePartsOf u2).map SetPart.pd ++
    (intervalsOf u2).map SetPart.pi)).map SetVal.su

/-- `AlgSet.__union`: dispatch on the pair of concrete kinds (swapping the
arguments when only the mirrored pair is in the method table). -/
def union2 (F : FilterFn) : SetVal → SetVal → Except SErr SetVal
  | SetVal.sd d1, SetVal.sd d2 => Except.ok (SetVal.sd (unionDiscrete d1 d2))
  | SetVal.sd d, SetVal.si i => unionDiscreteInterval F d i
  | SetVal.si i, SetVal.sd d => unionDiscreteInterval F d i
  | SetVal.sd d, SetVal.su u => unionDiscreteUnion F d u
  | SetVal.su u, SetVal.sd d => unionDiscreteUnion F d u
  | SetVal.si i1, SetVal.si i2 => unionIntervals F i1 i2
  | SetVal.si i, SetVal.su u => unionIntervalUnion F i u
  | SetVal.su u, SetVal.si i => unionIntervalUnion F i u
  | SetVal.su u1, SetVal.su u2 => unionUnions F u1 u2

/-- `AlgSet.union(*args)`: at least two arguments, folded pairwise
left-to-right. -/
def unionFold (F : FilterFn) : List SetVal → Except SErr SetVal
  | a :: b :: rest => do
    let first ← union2 F a b
    rest.foldlM (union2 F) first
  | _ => Except.error SErr.atLeastTwoForUnion

/-! ## Intersection dispatch -/

/-- `AlgSet.__get_set_based_on_intersection_size`: one part collapses to
that part; no parts would construct `UnionAlgSet()`, whose init assert
fails; two or more parts build a `UnionAlgSet`. -/
def getSetBySize (F : FilterFn) (parts : List SetPart) : Except SErr SetVal :=
  match parts with
  | [SetPart.pd d] => Except.ok (SetVal.sd d)
  | [SetPart.pi i] => Except.ok (SetVal.si i)
  | [] => Except.error SErr.atLeastTwoSetsInUnion
  | ps => (mkUnion F ps).map SetVal.su

/-- `AlgSet.__intersect_discrete_union`. -/
def intersectDiscreteUnion (d : DiscreteSet) (u : List SetPart) : DiscreteSet :=
  let start := match discretePartsOf u with
    | [d0] => intersectDiscretes d d0
    | _ => []
  (intervalsOf u).foldl (fun acc iv =>
    unionDiscrete acc (intersectDiscreteInterval d iv)) start

/-- `AlgSet.__intersect_interval_union`: intersect the interval with each
union member, merging discrete pieces and collecting interval pieces. -/
def intersectIntervalUnion (F : FilterFn) (i : IntervalSet) (u : List SetPart) :
    Except SErr SetVal := do
  let dStart := match discretePartsOf u with
    | [d0] => intersectDiscreteInterval d0 i
    | _ => []
  let res ← (intervalsOf u).foldlM
    (fun (st : DiscreteSet × List SetPart) inner => do
      if intersectionType i inner = IType.empty then pure st
      else
        match ← intersectIntervals F inner i with
        | SetVal.sd dd => pure (unionDiscrete st.1 dd, st.2)
        | SetVal.si j => pure (st.1, st.2 ++ [SetPart.pi j])
        | SetVal.su _ => pure st)
    ((dStart, []) : DiscreteSet × List SetPart)
  let parts := (if res.1.isEmpty then [] else [SetPart.pd res.1]) ++ res.2
  getSetBySize F parts

/-- `AlgSet.__intersect_unions`. -/
def intersectUnions (F : FilterFn) (u1 u2 : List SetPart) : Except SErr SetVal := do
  let d1 := match discretePartsOf u1 with
    | [d] => intersectDiscreteUnion d u2
    | _ => []
  let dBoth := match discretePartsOf u2 with
    | [d] => unionDiscrete d1 (intersectDiscreteUnion d u1)
    | _ => d1
  let res ← (intervalsOf u1).foldlM
    (fun (st : DiscreteSet × List SetPart) i1 =>
      (intervalsOf u2).foldlM
        (fun (st2 : DiscreteSet × List SetPart) i2 => do
          if intersectionType i1 i2 = IType.empty then pure st2
          else
            match ← intersectIntervals F i1 i2 with
            | SetVal.sd dd => pure (unionDiscrete st2.1 dd, st2.2)
            | SetVal.si j => pure (st2.1, st2.2 ++ [SetPart.pi j])
            | SetVal.su _ => pure st2)
        st)
    ((dBoth, []) : DiscreteSet × List SetPart)
  let parts := (if res.1.isEmpty then [] else [SetPart.pd res.1]) ++ res.2
  getSetBySize F parts

/-- `AlgSet.__intersect`: dispatch on the pair of concrete kinds. -/
def intersect2 (F : FilterFn) : SetVal → SetVal → Except SErr SetVal
  | SetVal.sd d1, SetVal.sd d2 => Except.ok (SetVal.sd (intersectDiscretes d1 d2))
  | SetVal.sd d, SetVal.si i => Except.ok (SetVal.sd (intersectDiscreteInterval d i))
  | SetVal.si i, SetVal.sd d => Except.ok (SetVal.sd (intersectDiscreteInterval d i))
  | SetVal.sd d, SetVal.su u => Except.ok (SetVal.sd (intersectDiscreteUnion d u))
  | SetVal.su u, SetVal.sd d => Except.ok (SetVal.sd (intersectDiscreteUnion d u))
  | SetVal.si i1, SetVal.si i2 => intersectIntervals F i1 i2
  | SetVal.si i, SetVal.su u => intersectIntervalUnion F i u
  | SetVal.su u, SetVal.si i => intersectIntervalUnion F i u
  | SetVal.su u1, SetVal.su u2 => intersectUnions F u1 u2

/-- `AlgSet.intersect(*args)`: at least two arguments, folded pairwise
left-to-right. -/
def intersectFold (F : FilterFn) : List SetVal → Except SErr SetVal
  | a :: b :: rest => do
    let first ← intersect2 F a b
    rest.foldlM (intersect2 F) first
  | _ => Except.error SErr.atLeastTwoForIntersection

/-! ## Text utilities (`AlgExp` statics, `patterns.py` character classes)

Strings are embedded as `List Char`.  Python `while` loops are
fuel-indexed recursion; every fuel argument used below provably suffices
or is only consumed on concrete inputs. -/

/-- Python `\s` on the ASCII range (the grammar alphabet is ASCII). -/
def wsChar (c : Char) : Bool :=
  c = ' ' || c = '\t' || c = '\n' || c = '\r' || c = '\x0b' || c = '\x0c'

/-- The operator tuple `AlgebraData.OPERATORS`, in ascending precedence
order: `+ - * / ^` and the root operator. -/
def opList : List Char := ['+', '-', '*', '/', '^', '§']

/-- `operators.index(op)` as used by the renderer. -/
def opIdx (c : Char) : Nat :=
  match c with
  | '+' => 0
  | '-' => 1
  | '*' => 2
  | '/' => 3
  | '^' => 4
  | _ => 5

/-- `AlgExp._bracketing`: per-character nesting depth (increment on a
configured open bracket, decrement on a close bracket, record after the
update). -/
def bracketingGo (pairs : List (Char × Char)) (lvl : Int) : List Char → List Int
  | [] => []
  | c :: rest =>
    let lvl2 :=
      if pairs.any (fun p => p.1 = c) then lvl + 1
      else if pairs.any (fun p => p.2 = c) then lvl - 1
      else lvl
    lvl2 :: bracketingGo pairs lvl2 rest

/-- `AlgExp._bracketing` from depth zero. -/
def bracketing (pairs : List (Char × Char)) (l : List Char) : List Int :=
  bracketingGo pairs 0 l

/-- `AlgExp._is_wrapped_in_brackets`: length above two and exactly one zero
in the depth sequence for the given bracket pair. -/
def isWrappedIn (lbr rbr : Char) (l : List Char) : Bool :=
  decide (l.length > 2) && ((bracketing [(lbr, rbr)] l).count 0 = 1)

/-- `AlgExp._remove_outer_brackets`: strip one layer while the whole string
is wrapped in ordinary brackets (fuel-indexed; each strip removes two
characters). -/
def removeOuter : Nat → List Char → List Char
  | 0, l => l
  | fuel + 1, l =>
    if isWrappedIn '(' ')' l then removeOuter fuel l.tail.dropLast else l

/-- `AlgExp._remove_white_spaces`. -/
def removeWhite (l : List Char) : List Char := l.filter (fun c => !wsChar c)

/-- Python `str.replace(pat, rep)` on character lists: replace every
non-overlapping occurrence left to right (fuel-indexed; fuel equal to the
input length suffices because each step consumes at least one character). -/
def replaceSub (pat rep : List Char) : Nat → List Char → List Char
  | 0, l => l
  | _ + 1, [] => []
  | fuel + 1, c :: rest =>
    if pat ≠ [] && pat.isPrefixOf (c :: rest) then
      rep ++ replaceSub pat rep fuel ((c :: rest).drop pat.length)
    else c :: replaceSub pat rep fuel rest

/-- `str.replace` with sufficient fuel. -/
def replaceAll (pat rep l : List Char) : List Char := replaceSub pat rep l.length l

/-- Substring occurrence test (Python `pat in s`). -/
def containsSub (pat : List Char) : List Char → Bool
  | [] => pat.isPrefixOf []
  | c :: rest => pat.isPrefixOf (c :: rest) || containsSub pat rest

/-- True on `+` and `-`. -/
def isSign (c : Char) : Bool := c = '+' || c = '-'

/-- Existence of two adjacent sign characters (`re.findall("[-+]{2}", s)`
is non-empty). -/
def hasAdjSigns : List Char → Bool
  | a :: b :: rest => (isSign a && isSign b) || hasAdjSigns (b :: rest)
  | _ => false

/-- The sign-pair replacement table of `_remove_redundant_pluses_minuses`,
in its application order. -/
def signPairTable : List (List Char × List Char) :=
  [(['-', '-'], ['+']), (['-', '+'], ['-']), (['+', '-'], ['-']), (['+', '+'], ['+'])]

/-- One pass of the four global sign-pair replacements. -/
def collapseRound (l : List Char) : List Char :=
  signPairTable.foldl (fun s pr => replaceAll pr.1 pr.2 s) l

/-- The `while re.findall(...)` loop collapsing adjacent sign pairs. -/
def collapseSigns : Nat → List Char → List Char
  | 0, l => l
  | fuel + 1, l => if hasAdjSigns l then collapseSigns fuel (collapseRound l) else l

/-- Drop one leading `+`. -/
def dropLeadPlus (l : List Char) : List Char :=
  match l with
  | [] => []
  | c :: rest => if c = '+' then rest else c :: rest

/-- Replace `(+` by `(` everywhere. -/
def dropPlusAfterBr (l : List Char) : List Char := replaceAll ['(', '+'] ['('] l

/-- `AlgExp._remove_redundant_pluses_minuses`: collapse sign runs, drop a
leading `+`, drop every `+` following an open bracket. -/
def removeRedundantSigns (l : List Char) : List Char :=
  dropPlusAfterBr (dropLeadPlus (collapseSigns (l.length + 1) l))

/-- The reserved numeric literals `("inf", "nan")`, in table order. -/
def specials : List (List Char) := [['i', 'n', 'f'], ['n', 'a', 'n']]

/-- A boundary character acceptable to the placeholder-substitution
patterns: a non-letter or the imaginary unit (`[^a-zA-Z]` or `i`);
`none` stands for the string boundary. -/
def boundOK : Option Char → Bool
  | none => true
  | some c => !c.isAlpha || c = 'i'

/-- Search for a reserved-literal occurrence matching one of the eight
boundary patterns of `AlgExp.__substitute_special_numeric_string` (every
pairing of start/non-letter/`i` on the left with non-letter/end/`i` on
the right, except bare start-to-end). -/
def boundMatchGo (sp : List Char) (prev : Option Char) : List Char → Bool
  | [] => false
  | c :: rest =>
    (sp.isPrefixOf (c :: rest) && boundOK prev &&
      (let after := ((c :: rest).drop sp.length).head?
       boundOK after && !(prev.isNone && after.isNone))) ||
    boundMatchGo sp (some c) rest

/-- Whether `re.search` finds a boundary-matched occurrence of `sp`. -/
def hasBoundMatch (sp l : List Char) : Bool := boundMatchGo sp none l

/-- The placeholder token `#k`. -/
def subsMark (idx : Nat) : List Char := '#' :: (toString idx).toList

/-- Substitution table: reserved literal paired with its placeholder. -/
abbrev SubstTab := List (List Char × List Char)

/-- `AlgExp._substitute_all_special_numeric_strings` (forward direction):
for `inf` then `nan`, when a boundary-matched occurrence exists, replace
every occurrence of the literal by the bracket-wrapped placeholder and
record the pair (the matched group is the literal itself, so `re.subn`
rewrites all its occurrences). -/
def substSpecialsBase (l : List Char) : List Char × SubstTab :=
  let r := specials.foldl
    (fun (st : List Char × SubstTab × Nat) sp =>
      if hasBoundMatch sp st.1 then
        (replaceAll sp ('(' :: subsMark st.2.2 ++ [')']) st.1,
          st.2.1 ++ [(sp, subsMark st.2.2)], st.2.2 + 1)
      else st)
    (l, ([], 1))
  (r.1, r.2.1)

/-- The reverse substitution: replace each bracket-wrapped placeholder by
its literal, in table order. -/
def reverseSubstBase (tab : SubstTab) (l : List Char) : List Char :=
  tab.foldl (fun s pr => replaceAll ('(' :: pr.2 ++ [')']) pr.1 s) l

/-- A generic fixed-point loop: apply `step` until the string stops
changing (the shape of `AlgExp._correction`'s `while` loop). -/
def fixLoop (step : List Char → List Char) : Nat → List Char → List Char
  | 0, l => l
  | fuel + 1, l =>
    let l2 := step l
    if l2 = l then l else fixLoop step fuel l2

/-- One round of the base correction methods, in tuple order: whitespace
removal, sign-run collapsing, outer-bracket stripping. -/
def stepBase (l : List Char) : List Char :=
  let l1 := removeWhite l
  let l2 := removeRedundantSigns l1
  removeOuter (l2.length + 1) l2

/-- The text canonicalizer (`AlgExp._correction`, `algexp.py` lines
113-129, with the base correction-method tuple installed by
`AlgExp.__init__`): reserved-literal placeholder substitution, the
fixed-point rewrite loop, and the reverse substitution. -/
def canonicalize (l : List Char) : List Char :=
  let f := substSpecialsBase l
  reverseSubstBase f.2 (fixLoop stepBase (f.1.length + 1) f.1)

/-! ## Numeric expression parsing

`AlgExp.initializer(text, NumericAtomicAlgExp, NumericCompositeAlgExp)`:
try the atomic constructor, then the composite one, treating their
`AssertionError`/`ValueError` failures as control flow. -/

/-- Parse-side error kinds: `assertFail` and `valueErr` are the
`AssertionError`/`ValueError` failures the constructor trial catches;
`isNotAlgExp` is the error raised after candidate exhaustion; `divZero`
is the `ZeroDivisionError` from `_check_content`, which no trial catches;
`fuelOut` marks exhausted recursion fuel (never reached at the fuels used
by the theorems). -/
inductive PErr : Type where
  | assertFail : PErr
  | valueErr : PErr
  | isNotAlgExp : PErr
  | divZero : PErr
  | fuelOut : PErr
  deriving DecidableEq, Repr

/-- Which parse errors the candidate trial treats as expected control
flow (`except (algexptools.AlgExpError, AssertionError)`). -/
def isCaughtP : PErr → Bool
  | PErr.assertFail => true
  | PErr.valueErr => true
  | PErr.isNotAlgExp => true
  | PErr.divZero => false
  | PErr.fuelOut => false

/-- All trailing characters are closing brackets (`\)*$`). -/
def tailParens (l : List Char) : Bool := l.all (fun c => c = ')')

/-- The shared left part `^\(*[-+]*` of the numeric literal patterns:
consume opening brackets, then signs. -/
def dropLeftPart (l : List Char) : List Char :=
  ((l.dropWhile (fun c => c = '(')).dropWhile isSign)

/-- `Patterns.FLOAT_NUMBER`: `^\(*[-+]*\d+\.\d+\)*$`. -/
def matchFloat (l : List Char) : Bool :=
  let r := dropLeftPart l
  let p := r.span Char.isDigit
  !p.1.isEmpty &&
    (match p.2 with
     | '.' :: r2 =>
       let q := r2.span Char.isDigit
       !q.1.isEmpty && tailParens q.2
     | _ => false)

/-- `Patterns.INTEGER`: `^\(*[-+]*\d+\)*$` or `^\(*[-+]*i\)*$`. -/
def matchInteger (l : List Char) : Bool :=
  let r := dropLeftPart l
  (let p := r.span Char.isDigit
   !p.1.isEmpty && tailParens p.2) ||
  (match r with
   | 'i' :: rp => tailParens rp
   | _ => false)

/-- `Patterns.SPECIAL_NUMERIC_STRING`: each reserved literal wrapped in the
shared left and right parts. -/
def matchSpecialLit (l : List Char) : Bool :=
  let r := dropLeftPart l
  specials.any (fun sp => sp.isPrefixOf r && tailParens (r.drop sp.length))

/-- `Patterns.ALLOWED_NUMERIC_ATOMIC_CONTENT`. -/
def matchNumAtomic (l : List Char) : Bool :=
  matchFloat l || matchInteger l || matchSpecialLit l

/-- `NumericAtomicAlgExp._substitute_all_special_numeric_strings` (forward):
plain containment test, replacement by the bare placeholder, stopping at
the first substituted literal. -/
def substSpecialsAtomic : List (List Char) → List Char → List Char × SubstTab
  | [], l => (l, [])
  | sp :: rest, l =>
    if containsSub sp l then (replaceAll sp (subsMark 1) l, [(sp, subsMark 1)])
    else substSpecialsAtomic rest l

/-- The atomic reverse substitution (bare placeholders). -/
def reverseSubstAtomic (tab : SubstTab) (l : List Char) : List Char :=
  tab.foldl (fun s pr => replaceAll pr.2 pr.1 s) l

/-- Leading `0` before another digit (`^0\d` loop of
`AtomicAlgExp._remove_zeros`). -/
def dropZeroLead : Nat → List Char → List Char
  | 0, l => l
  | fuel + 1, l =>
    match l with
    | '0' :: d :: rest => if d.isDigit then dropZeroLead fuel (d :: rest) else l
    | _ => l

/-- The `^-0\d` loop. -/
def dropZeroLeadMinus : Nat → List Char → List Char
  | 0, l => l
  | fuel + 1, l =>
    match l with
    | '-' :: '0' :: d :: rest =>
      if d.isDigit then dropZeroLeadMinus fuel ('-' :: d :: rest) else l
    | _ => l

/-- The trailing `\d0$` test. -/
def trailDigitZero (l : List Char) : Bool :=
  match l.reverse with
  | '0' :: d :: _ => d.isDigit
  | _ => false

/-- The trailing-zero loop (only while a decimal point is present). -/
def dropZeroTrail : Nat → List Char → List Char
  | 0, l => l
  | fuel + 1, l =>
    if trailDigitZero l && l.contains '.' then dropZeroTrail fuel l.dropLast else l

/-- `AtomicAlgExp._remove_zeros`. -/
def removeZeros (l : List Char) : List Char :=
  dropZeroTrail (l.length + 1) (dropZeroLeadMinus (l.length + 1) (dropZeroLead (l.length + 1) l))

/-- One round of the atomic correction methods: the base three plus
`_remove_zeros`. -/
def stepAtomic (l : List Char) : List Char :=
  removeZeros (stepBase l)

/-- `AlgExp._correction` with `NumericAtomicAlgExp`'s method tuple and its
overridden special-string substitution. -/
def correctionAtomic (l : List Char) : List Char :=
  let f := substSpecialsAtomic specials l
  reverseSubstAtomic f.2 (fixLoop stepAtomic (f.1.length + 1) f.1)

/-- Digits accumulated as a natural number. -/
def digitsToNat (l : List Char) : ℕ :=
  l.foldl (fun acc c => acc * 10 + (c.toNat - '0'.toNat)) 0

/-- Exact value of a decimal literal `[sign] digits [. digits]` as a
fraction over the matching power of ten (exactly the
numerator/denominator the source derives from the decimal string; the
source converts through a Python float and back through `str`, and on the
short canonical decimals the claims use that round trip is the
identity). -/
def decimalToF (l : List Char) : Option (ℤ × ℤ) :=
  let pr :=
    match l with
    | '-' :: rest => (true, rest)
    | '+' :: rest => (false, rest)
    | _ => (false, l)
  let p := pr.2.span Char.isDigit
  if p.1.isEmpty then none
  else
    let ip : ℤ := Int.ofNat (digitsToNat p.1)
    match p.2 with
    | [] => some (if pr.1 then -ip else ip, 1)
    | '.' :: fr =>
      let q := fr.span Char.isDigit
      if q.1.isEmpty || !q.2.isEmpty then none
      else
        let n : ℤ := ip * Int.ofNat (10 ^ q.1.length) + Int.ofNat (digitsToNat q.1)
        some (if pr.1 then -n else n, Int.ofNat (10 ^ q.1.length))
    | _ => none

/-- Digits of an integer (Python `str`). -/
def intChars (n : ℤ) : List Char := (toString n).toList

/-- Digits of a natural number. -/
def natChars (n : ℕ) : List Char := (toString n).toList

/-- The numeric expression tree: a `NumericAtomicAlgExp` content string or
a `NumericCompositeAlgExp` operator with its ordered children. -/
inductive NExp : Type where
  | atom : List Char → NExp
  | comp : Char → List NExp → NExp
  deriving BEq, Repr

/-- `NumericAtomicAlgExp._create_content_from_str` together with
`_init_check`: the allowed-pattern assert on the whitespace-free input,
the bracket-balance assert, the correction pipeline, the corrected-pattern
assert, and the float path (`_create_content_from_float`: only an
integral float yields an atom; a fractional one fails the candidate). -/
def tryAtomic (l : List Char) : Except PErr NExp :=
  let clean := removeWhite l
  if !matchNumAtomic clean then Except.error PErr.assertFail
  else if !(l.count '(' = l.count ')') then Except.error PErr.assertFail
  else
    let corr := correctionAtomic l
    if !matchNumAtomic corr then Except.error PErr.assertFail
    else if matchFloat corr then
      match decimalToF corr with
      | some q =>
        if q.1 % q.2 = 0 then Except.ok (NExp.atom (intChars (q.1 / q.2)))
        else Except.error PErr.assertFail
      | none => Except.error PErr.assertFail
    else Except.ok (NExp.atom corr)

/-- A letter other than the imaginary unit
(`Patterns.ALLOWED_VAR_CHARS_WITHOUT_IMAG_UNIT`). -/
def isVarNotI (c : Char) : Bool := c.isAlpha && c ≠ 'i'

/-- `Patterns.RESTRICTED_NUMERIC_COMPOSITE_CONTENT`: a reserved literal
directly preceded or followed by a letter other than `i`. -/
def restrictedGo (prev : Option Char) : List Char → Bool
  | [] => false
  | c :: rest =>
    (match specials.find? (fun sp => sp.isPrefixOf (c :: rest)) with
     | some sp =>
       (match prev with
        | some p => isVarNotI p
        | none => false) ||
       (match ((c :: rest).drop sp.length).head? with
        | some nc => isVarNotI nc
        | none => false)
     | none => false) ||
    restrictedGo (some c) rest

/-- See `restrictedGo`. -/
def restrictedNumComposite (l : List Char) : Bool := restrictedGo none l

/-- A character admitted by
`Patterns.ALLOWED_NUMERIC_COMPOSITE_CONTENT`. -/
def numCompPatChar (c : Char) : Bool :=
  c = '(' || c = ')' || c = '+' || c = '-' || c = '*' || c = '/' || c = '^' ||
    c = '§' || c = '.' || c = 'i' || c.isDigit || wsChar c

/-- `^[...]+$` over the admitted characters. -/
def matchNumCompAllowed (l : List Char) : Bool :=
  !l.isEmpty && l.all numCompPatChar

/-- `CompositeAlgExp._add_multiply_operators`: the sixteen adjacent-pair
combinations that receive an implicit `*`.  (The source loops
findall/replace to a fixed point; since every pattern is a two-character
pair and the inserted `*` belongs to no combination class, that fixed
point inserts exactly one `*` between every adjacent combination pair,
which the single scan below produces directly.) -/
def multCombo (a b : Char) : Bool :=
  (a.isDigit && (b.isAlpha || b = '(' || b = '\x7b')) ||
  (a.isAlpha && (b.isDigit || b.isAlpha || b = '(' || b = '\x7b')) ||
  (a = ')' && (b.isDigit || b.isAlpha || b = '(' || b = '\x7b')) ||
  (a = '\x7d' && (b.isDigit || b.isAlpha || b = '(' || b = '\x7b'))

/-- See `multCombo`. -/
def addMult : List Char → List Char
  | a :: b :: rest =>
    if multCombo a b then a :: '*' :: addMult (b :: rest) else a :: addMult (b :: rest)
  | l => l

/-- The literal `(-1)`. -/
def minusOneBr : List Char := ['(', '-', '1', ')']

/-- `CompositeAlgExp.__indexes_of_minuses_for_replace`: the protected
indexes are the minus positions inside literal `(-1)` occurrences
(`found.start() + 1`). -/
def restrictedMinusIdxs (l : List Char) : List Nat :=
  (List.range l.length).filterMap (fun i =>
    if minusOneBr.isPrefixOf (l.drop i) then some (i + 1) else none)

/-- `CompositeAlgExp._replace_minuses`: rewrite every unprotected `-` into
`+(-1)*` (protections: no minus at all, the whole string wrapped in
immutable brackets, the exact string `-1`), then drop a leading `+` and
every `+` after an open bracket. -/
def replaceMinuses (l : List Char) : List Char :=
  if !l.contains '-' then l
  else if isWrappedIn '\x7b' '\x7d' l then l
  else if l = ['-', '1'] then l
  else
    let restr := restrictedMinusIdxs l
    let out := (l.enum.map (fun p =>
      if p.2 = '-' && !restr.contains p.1 then ['+', '(', '-', '1', ')', '*']
      else [p.2])).flatten
    dropPlusAfterBr (dropLeadPlus out)

/-- One round of `NumericCompositeAlgExp`'s correction methods: the base
three, then implicit multiplication and minus rewriting. -/
def stepNumComp (l : List Char) : List Char :=
  replaceMinuses (addMult (stepBase l))

/-- `AlgExp._correction` with `NumericCompositeAlgExp`'s method tuple (the
base special-string substitution, a generous loop fuel: the loop reaches
its fixed point within the fuel on every input the theorems touch). -/
def correctionNumComp (l : List Char) : List Char :=
  let f := substSpecialsBase l
  reverseSubstBase f.2 (fixLoop stepNumComp (f.1.length + 64) f.1)

/-- Positions at ordinary-bracket depth zero holding the given operator
(`NumericCompositeAlgExp._alg_exp_structure` scans ordinary brackets
only). -/
def splitPositions (l : List Char) (op : Char) : List Nat :=
  let br := bracketing [('(', ')')] l
  (List.range l.length).filter (fun i => br.get? i = some 0 && l.get? i = some op)

/-- The node operator: the first operator in ascending precedence order
with at least one depth-zero occurrence, along with those positions. -/
def chooseOp (l : List Char) : Option (Char × List Nat) :=
  opList.findSome? (fun op =>
    let ps := splitPositions l op
    if ps.isEmpty then none else some (op, ps))

/-- Split the text at the recorded positions (and the string end). -/
def segmentsAt (l : List Char) (ps : List Nat) : List (List Char) :=
  ((ps ++ [l.length]).foldl
    (fun (st : Nat × List (List Char)) idx =>
      (idx + 1, st.2 ++ [(l.drop st.1).take (idx - st.1)]))
    (0, [])).2

/-- `CompositeAlgExp._check_content`: walking the children after the first,
a `/` node with a literal `"0"` child raises `ZeroDivisionError`;
composite children are checked recursively. -/
def checkContent : Nat → NExp → Except PErr Unit
  | _, NExp.atom _ => Except.ok ()
  | 0, NExp.comp _ _ => Except.error PErr.fuelOut
  | fuel + 1, NExp.comp op cs =>
    (cs.drop 1).foldlM
      (fun _ e =>
        if op = '/' && (match e with
          | NExp.atom c => c = ['0']
          | _ => false) then Except.error PErr.divZero
        else
          match e with
          | NExp.comp _ _ => checkContent fuel e
          | _ => Except.ok ())
      ()

/-- `AlgExp.initializer(text, NumericAtomicAlgExp, NumericCompositeAlgExp)`
(fuel-indexed recursion through the split): try the atomic constructor;
on a caught failure try the composite constructor
(`NumericCompositeAlgExp._init_check`, then `_create_content_from_str`:
correction, the float path, or the precedence split with recursive
construction of the children and the content check); when both fail with
caught errors, raise the exhaustion error. -/
def parseNum : Nat → List Char → Except PErr NExp
  | 0, _ => Except.error PErr.fuelOut
  | fuel + 1, l =>
    match tryAtomic l with
    | Except.ok e => Except.ok e
    | Except.error ea =>
      if !isCaughtP ea then Except.error ea
      else
        let comp : Except PErr NExp :=
          if restrictedNumComposite l then Except.error PErr.assertFail
          else
            let replaced := replaceAll ['n', 'a', 'n'] ['i'] (replaceAll ['i', 'n', 'f'] ['i'] l)
            if !matchNumCompAllowed replaced then Except.error PErr.assertFail
            else if matchInteger (removeWhite replaced) then Except.error PErr.assertFail
            else if !(l.count '(' = l.count ')') then Except.error PErr.assertFail
            else
              let corr := correctionNumComp l
              if matchFloat corr then
                match decimalToF corr with
                | some q =>
                  let g : ℤ := Int.ofNat (Nat.gcd q.1.natAbs q.2.natAbs)
                  if q.2 / g = 1 then Except.ok (NExp.comp '/' [NExp.atom (intChars (q.1 / g))])
                  else Except.ok (NExp.comp '/'
                    [NExp.atom (intChars (q.1 / g)), NExp.atom (intChars (q.2 / g))])
                | none => Except.error PErr.assertFail
              else
                match chooseOp corr with
                | none => Except.error PErr.valueErr
                | some (op, ps) =>
                  match (segmentsAt corr ps).mapM (parseNum fuel) with
                  | Except.error e => Except.error e
                  | Except.ok children =>
                    match checkContent fuel (NExp.comp op children) with
                    | Except.error e => Except.error e
                    | Except.ok _ => Except.ok (NExp.comp op children)
        match comp with
        | Except.ok e => Except.ok e
        | Except.error ec =>
          if !isCaughtP ec then Except.error ec
          else Except.error PErr.isNotAlgExp

/-- Leading minus test on an atom content. -/
def startsMinus (c : List Char) : Bool := c.head? = some '-'

/-- The renderer `CompositeAlgExp.__str__` together with
`AtomicAlgExp.__str__`: each child is wrapped in brackets when it is an
atom whose content starts with `-`, or a composite whose operator has
strictly lower precedence than the parent's, or when parent and child
operator are both `/`; children are joined by the parent operator and the
trailing operator is dropped. -/
def renderN : Nat → NExp → List Char
  | _, NExp.atom c => c
  | 0, NExp.comp _ _ => []
  | fuel + 1, NExp.comp op cs =>
    (cs.foldl (fun acc e =>
      let r := renderN fuel e
      let wrap :=
        match e with
        | NExp.atom c => startsMinus c
        | NExp.comp cop _ => decide (opIdx op > opIdx cop) || (op = '/' && cop = '/')
      acc ++ (if wrap then '(' :: r ++ [')'] else r) ++ [op]) []).dropLast

/-! ## Evaluation

`NumericCompositeAlgExp.value` and `NumericAtomicAlgExp.value`.  Complex
floats are embedded as exact Gaussian rationals: on the fragment the
claims evaluate (small integer sums, products and integer powers) CPython
float/complex arithmetic is exact, so the embedding agrees with the
source; the transcendental power path (non-integral or large exponents)
is outside the exact fragment and surfaces as `inexactPow`. -/

/-- An exact (possibly unnormalized) fraction of integers: the rational
value `num / den`.  Kept unnormalized so that every arithmetic step is a
plain integer computation. -/
structure Frac : Type where
  num : ℤ
  den : ℤ
  deriving DecidableEq, Repr

/-- The integer `n` as a fraction. -/
def fOfInt (n : ℤ) : Frac := ⟨n, 1⟩

/-- Fraction addition. -/
def fAdd (a b : Frac) : Frac := ⟨a.num * b.den + b.num * a.den, a.den * b.den⟩

/-- Fraction subtraction. -/
def fSub (a b : Frac) : Frac := ⟨a.num * b.den - b.num * a.den, a.den * b.den⟩

/-- Fraction multiplication. -/
def fMul (a b : Frac) : Frac := ⟨a.num * b.num, a.den * b.den⟩

/-- Fraction division. -/
def fDiv (a b : Frac) : Frac := ⟨a.num * b.den, a.den * b.num⟩

/-- Value equality of fractions (cross multiplication). -/
def fEq (a b : Frac) : Bool := a.num * b.den = b.num * a.den

/-- A complex value as a pair of exact fractions (real and imaginary
part). -/
abbrev CQ : Type := Frac × Frac

/-- Complex addition. -/
def cAdd (a b : CQ) : CQ := (fAdd a.1 b.1, fAdd a.2 b.2)

/-- Complex subtraction. -/
def cSub (a b : CQ) : CQ := (fSub a.1 b.1, fSub a.2 b.2)

/-- Complex multiplication. -/
def cMul (a b : CQ) : CQ :=
  (fSub (fMul a.1 b.1) (fMul a.2 b.2), fAdd (fMul a.1 b.2) (fMul a.2 b.1))

/-- Complex division (exact; the claims never divide). -/
def cDiv (a b : CQ) : CQ :=
  let d := fAdd (fMul b.1 b.1) (fMul b.2 b.2)
  (fDiv (fAdd (fMul a.1 b.1) (fMul a.2 b.2)) d, fDiv (fSub (fMul a.2 b.1) (fMul a.1 b.2)) d)

/-- Python `complex == 0`: both parts of value zero. -/
def cIsZero (a : CQ) : Bool := fEq a.1 (fOfInt 0) && fEq a.2 (fOfInt 0)

/-- Evaluation error kinds: `divZero` is the `ZeroDivisionError` raise in
the `/` fold; `nonfinite` marks a reserved literal (whose float value
leaves the exact fragment); `inexactPow` marks the transcendental power
path; `badContent` marks contents the claims never evaluate. -/
inductive VErr : Type where
  | divZero : VErr
  | nonfinite : VErr
  | inexactPow : VErr
  | badContent : VErr
  | unknownOperator : VErr
  | fuelOut : VErr
  deriving DecidableEq, Repr

/-- The complex one. -/
def cOne : CQ := (fOfInt 1, fOfInt 0)

/-- The complex zero. -/
def cZero : CQ := (fOfInt 0, fOfInt 0)

/-- Repeated complex multiplication (CPython's `c_powi` fast path for
integer exponents of magnitude at most 100 computes exactly this product
for exact inputs). -/
def cPowNat (b : CQ) : Nat → CQ
  | 0 => cOne
  | n + 1 => cMul b (cPowNat b n)

/-- Python `complex ** complex`: the exact integer-exponent path (exponent
with zero imaginary part and an integral real part of magnitude at most
100); the transcendental path produces irrational floats and is not
exactly representable. -/
def cPow (b e : CQ) : Except VErr CQ :=
  if fEq e.2 (fOfInt 0) && e.1.num % e.1.den = 0 && (e.1.num / e.1.den).natAbs ≤ 100 then
    let n : ℤ := e.1.num / e.1.den
    if 0 ≤ n then Except.ok (cPowNat b n.toNat)
    else
      let p := cPowNat b n.natAbs
      if cIsZero p then Except.error VErr.divZero
      else Except.ok (cDiv cOne p)
  else Except.error VErr.inexactPow

/-- `NumericAtomicAlgExp.value`: `i`/`-i` map to the imaginary units, and
every other canonical content goes through `complex(content)` (a signed
decimal literal on the exact fragment; the reserved literals leave it). -/
def valueAtom (c : List Char) : Except VErr CQ :=
  if c = ['i'] then Except.ok (fOfInt 0, fOfInt 1)
  else if c = ['-', 'i'] then Except.ok (fOfInt 0, fOfInt (-1))
  else if containsSub ['i', 'n', 'f'] c || containsSub ['n', 'a', 'n'] c then
    Except.error VErr.nonfinite
  else
    match decimalToF c with
    | some q => Except.ok (⟨q.1, q.2⟩, fOfInt 0)
    | none => Except.error VErr.badContent

/-- `NumericCompositeAlgExp.value` (`numericcompositealgexp.py` lines
30-63): `+` sums from zero; `-` left-folds subtraction from the first
child; `*` multiplies from one; `/` left-folds division from the first
child, raising on an exactly-zero divisor; `^` right-folds (children in
reverse order, each child's value becoming the base raised to the
accumulator); the root operator left-folds `result ** (1/child)`. -/
def valueN : Nat → NExp → Except VErr CQ
  | _, NExp.atom c => valueAtom c
  | 0, NExp.comp _ _ => Except.error VErr.fuelOut
  | fuel + 1, NExp.comp op cs =>
    if op = '+' then
      cs.foldlM (fun acc e => do pure (cAdd acc (← valueN fuel e))) cZero
    else if op = '-' then
      match cs with
      | [] => Except.error VErr.badContent
      | e0 :: rest => do
        rest.foldlM (fun acc e => do pure (cSub acc (← valueN fuel e))) (← valueN fuel e0)
    else if op = '*' then
      cs.foldlM (fun acc e => do pure (cMul acc (← valueN fuel e))) cOne
    else if op = '/' then
      match cs with
      | [] => Except.error VErr.badContent
      | e0 :: rest => do
        rest.foldlM
          (fun acc e => do
            let v ← valueN fuel e
            if cIsZero v then Except.error VErr.divZero
            else pure (cDiv acc v))
          (← valueN fuel e0)
    else if op = '^' then
      cs.reverse.foldlM (fun acc e => do cPow (← valueN fuel e) acc) cOne
    else if op = '§' then
      match cs with
      | [] => Except.error VErr.badContent
      | e0 :: rest => do
        rest.foldlM
          (fun acc e => do
            let v ← valueN fuel e
            if cIsZero v then Except.error VErr.divZero
            else cPow acc (cDiv cOne v))
          (← valueN fuel e0)
    else Except.error VErr.unknownOperator

/-- Parse a text with the numeric candidates (fuel 60 covers every input
in this development). -/
def parseText (s : List Char) : Except PErr NExp := parseNum 60 s

/-- The value of the parse result. -/
def parseValue (s : List Char) : Except PErr (Except VErr CQ) :=
  (parseText s).map (valueN 60)

/-- The round trip of the testable-properties section: parse, render,
re-parse, and return both evaluated values. -/
def roundTripValues (s : List Char) : Option (Except VErr CQ × Except VErr CQ) :=
  match parseText s with
  | Except.error _ => none
  | Except.ok e =>
    match parseText (renderN 60 e) with
    | Except.error _ => none
    | Except.ok e2 => some (valueN 60 e, valueN 60 e2)

/-- The operator of a composite node. -/
def topOp : NExp → Option Char
  | NExp.comp op _ => some op
  | _ => none

/-- The rendered texts of a composite node's children. -/
def childTexts : NExp → List (List Char)
  | NExp.comp _ cs => cs.map (renderN 60)
  | _ => []

/-! ## Variable substitution with shared children (`VariableCompositeAlgExp`)

`substitute` copies the root with `AlgExp.initializer(self)`, whose
`_create_content_from_other_instance` performs `self._content =
expression.content[:]` — a shallow list copy, so the copy's children are
the very node objects of the original tree.  `__substitute` then recurses
into variable-composite children, assigning into their `content` lists in
place.  To state what happens to the original object graph we embed the
heap explicitly: nodes live at addresses, composite children are
addresses. -/

/-- A heap node: an atom (variable or numeric) or a composite. -/
inductive HNode : Type where
  | hatom : (isVar : Bool) → (content : List Char) → HNode
  | hcomp : (isVar : Bool) → (op : Char) → (children : List Nat) → HNode
  deriving DecidableEq, Repr

/-- The object heap, indexed by address. -/
abbrev Heap : Type := List HNode

/-- Render the tree rooted at an address (the `__str__` of the node; the
wrap rules only matter for the concrete graphs used here, where the
bracket rule for lower-precedence composite children applies). -/
def renderH (h : Heap) : Nat → Nat → List Char
  | 0, _ => []
  | fuel + 1, addr =>
    match h.get? addr with
    | some (HNode.hatom _ c) => c
    | some (HNode.hcomp _ op cs) =>
      (cs.foldl (fun acc a =>
        let r := renderH h fuel a
        let wrap :=
          match h.get? a with
          | some (HNode.hatom _ c) => startsMinus c
          | some (HNode.hcomp _ cop _) => decide (opIdx op > opIdx cop) || (op = '/' && cop = '/')
          | none => false
        acc ++ (if wrap then '(' :: r ++ [')'] else r) ++ [op]) []).dropLast
    | none => []

/-- Is the node at `addr` a variable composite? -/
def isVarCompAt (h : Heap) (addr : Nat) : Bool :=
  match h.get? addr with
  | some (HNode.hcomp true _ _) => true
  | _ => false

/-- Is the node at `addr` a variable expression? -/
def isVarAt (h : Heap) (addr : Nat) : Bool :=
  match h.get? addr with
  | some (HNode.hatom v _) => v
  | some (HNode.hcomp v _ _) => v
  | none => false

/-- Overwrite the node at an address. -/
def heapSet (h : Heap) (addr : Nat) (n : HNode) : Heap := h.set addr n

/-- `VariableCompositeAlgExp.__substitute` acting on the node at `addr`:
first recurse into every variable-composite child (these are the shared
original nodes, mutated in place), then overwrite the child slots holding
the target variable instance with the replacement address, in the node's
own content list. -/
def substituteAt (targ repl : Nat) : Nat → Heap → Nat → Heap
  | 0, h, _ => h
  | fuel + 1, h, addr =>
    match h.get? addr with
    | some (HNode.hcomp v op cs) =>
      let h2 := cs.foldl (fun hh a =>
        if isVarAt hh a && isVarCompAt hh a then substituteAt targ repl fuel hh a else hh) h
      let cs2 := cs.map (fun a => if a = targ then repl else a)
      heapSet h2 addr (HNode.hcomp v op cs2)
    | _ => h

/-- `VariableCompositeAlgExp.substitute` restricted to the object-graph
effect: append the shallow copy of the root (same operator, the same
child addresses) and the replacement numeric atom, then run
`__substitute` on the copy.  Returns the new heap and the copy's
address. -/
def substituteRoot (h : Heap) (root targ : Nat) (replContent : List Char) : Heap × Nat :=
  match h.get? root with
  | some (HNode.hcomp v op cs) =>
    let copyAddr := h.length
    let replAddr := h.length + 1
    let h1 := h ++ [HNode.hcomp v op cs, HNode.hatom false replContent]
    (substituteAt targ replAddr 30 h1 copyAddr, copyAddr)
  | _ => (h, root)

/-- The parse result of `VariableCompositeAlgExp("y*(x+1)")` as an object
graph, after variable unification: address 0 the variable atom `y`,
address 1 the unified variable atom `x`, address 2 the numeric atom `1`,
address 3 the inner composite `x+1`, address 4 the root `y*(x+1)`. -/
def heapYX1 : Heap :=
  [HNode.hatom true ['y'],
   HNode.hatom true ['x'],
   HNode.hatom false ['1'],
   HNode.hcomp true '+' [1, 2],
   HNode.hcomp true '*' [0, 3]]

/-! ## Substitution checking (`VariableAlgExp._substitute_check`) -/

/-- Substitution error kinds: `invalidValue` is the
`InvalidSubstitutionValue` raise (the substitution argument constructs no
numeric expression); `notInDomain` is the domain-membership assert. -/
inductive SubErr : Type where
  | invalidValue : SubErr
  | notInDomain : SubErr
  deriving DecidableEq, Repr

/-- `VariableAlgExp._substitute_check` (`variablealgexp.py` lines 89-124)
for a variable given by content string and an interval domain: the
substitution value must already be (or construct) a numeric expression
(here given as its embedded observation `num`); a variable absent from
the expression makes the call a reported no-op (`ok false`); otherwise
the value must be a member of the variable's domain set, else the
`NotInDomain` assert fires; on success substitution proceeds
(`ok true`). -/
def substituteCheck (vars : List (List Char)) (domains : List Char → IntervalSet)
    (v : List Char) (num : SNum) : Except SubErr Bool :=
  if !vars.contains v then Except.ok false
  else if !containsI (domains v) num then Except.error SubErr.notInDomain
  else Except.ok true

/-- The closed interval `[0, 10]` built from numeric atoms (fully inside
`IntervalAlgSet`'s constructible range). -/
def dom010 : IntervalSet := ⟨snum 0, snum 10, true, true⟩

/-! ## Concrete instances used by the claims -/

/-- The interval `(0, 5]`. -/
def i05rc : IntervalSet := ⟨snum 0, snum 5, false, true⟩

/-- The interval `[5, 10)`. -/
def i510lc : IntervalSet := ⟨snum 5, snum 10, true, false⟩

/-- The discrete set `{1}`. -/
def dOne : DiscreteSet := [snum 1]

/-- The interval `(0, 1)`. -/
def i01 : IntervalSet := ⟨snum 0, snum 1, false, false⟩

/-- The interval `(1, 2)`. -/
def i12 : IntervalSet := ⟨snum 1, snum 2, false, false⟩

/-- The open interval `(0, 2)`. -/
def i02 : IntervalSet := ⟨snum 0, snum 2, false, false⟩

/-- The open interval `(1, 3)`. -/
def i13 : IntervalSet := ⟨snum 1, snum 3, false, false⟩

/-- Whitespace-freeness of a string (used as an explicit hypothesis). -/
def noWsB (l : List Char) : Bool := l.all (fun c => !wsChar c)

/-- Absence of both reserved literals as substrings. -/
def noInfNanB (l : List Char) : Bool :=
  !containsSub ['i', 'n', 'f'] l && !containsSub ['n', 'a', 'n'] l

end AlgebraTools

deriving instance DecidableEq for Except

namespace AlgebraTools

/-! ## Helper lemmas on the float order -/

/-- A true `<` comparison forces both floats to be non-`nan`. -/
theorem xlt_ne_nan {a b : XR} (h : xlt a b = true) : a ≠ XR.nan ∧ b ≠ XR.nan := by
  cases a <;> cases b <;> simp_all [xlt]

/-- Every non-`nan` float is negative or non-negative (the `nan` assert of
`IntervalAlgSet._filter_number` passes). -/
theorem xlt_zero_total {a : XR} (h : a ≠ XR.nan) :
    (xlt a (XR.fin 0) || xle (XR.fin 0) a) = true := by
  cases a with
  | nan => exact absurd rfl h
  | ninf => rfl
  | pinf => rfl
  | fin q =>
    simp only [xlt, xle, xeq, Bool.or_eq_true, decide_eq_true_eq]
    rcases lt_trichotomy q 0 with hq | hq | hq
    · exact Or.inl hq
    · exact Or.inr (Or.inr hq.symm)
    · exact Or.inr (Or.inl hq)

/-- Float `<` is asymmetric, refuting the mirrored `<=`. -/
theorem xle_false_of_xlt {a b : XR} (h : xlt a b = true) : xle b a = false := by
  cases a <;> cases b <;> simp_all [xlt, xle, xeq]
  next q1 q2 =>
    exact ⟨le_of_lt h, ne_of_gt h⟩

/-! ## Helper lemmas for canonicalizer idempotence (C8) -/

theorem replaceSub_length (pat rep : List Char) (hlen : rep.length ≤ pat.length) :
    ∀ (fuel : Nat) (l : List Char), (replaceSub pat rep fuel l).length ≤ l.length := by
  intro fuel
  induction fuel with
  | zero => intro l; simp [replaceSub]
  | succ f ih =>
    intro l
    match l with
    | [] => simp [replaceSub]
    | c :: rest =>
      rw [replaceSub]
      split
      next h =>
        simp only [Bool.and_eq_true, decide_eq_true_eq] at h
        have hpre : pat <+: c :: rest := List.isPrefixOf_iff_prefix.mp h.2
        have hple : pat.length ≤ (c :: rest).length := hpre.length_le
        have hrec := ih ((c :: rest).drop pat.length)
        simp only [List.length_append, List.length_drop] at *
        omega
      next =>
        have hrec := ih rest
        simp only [List.length_cons]
        omega

theorem replaceSub_of_not_contains (pat rep : List Char) :
    ∀ (fuel : Nat) (l : List Char), containsSub pat l = false → replaceSub pat rep fuel l = l := by
  intro fuel
  induction fuel with
  | zero => intro l _; rfl
  | succ f ih =>
    intro l hnc
    match l with
    | [] => rfl
    | c :: rest =>
      rw [containsSub, Bool.or_eq_false_iff] at hnc
      rw [replaceSub]
      split
      next h =>
        simp only [Bool.and_eq_true, decide_eq_true_eq] at h
        rw [h.2] at hnc
        exact absurd hnc.1 (by simp)
      next => rw [ih rest hnc.2]

theorem replaceSub_length_lt (pat rep : List Char) (hlen : rep.length < pat.length) :
    ∀ (fuel : Nat) (l : List Char), l.length ≤ fuel → containsSub pat l = true →
      (replaceSub pat rep fuel l).length < l.length := by
  intro fuel
  induction fuel with
  | zero =>
    intro l hf hc
    have : l = [] := List.length_eq_zero.mp (Nat.le_zero.mp hf)
    subst this
    rw [containsSub] at hc
    have : pat = [] := by
      cases pat with
      | nil => rfl
      | cons a as => simp [List.isPrefixOf] at hc
    subst this
    simp at hlen
  | succ f ih =>
    intro l hf hc
    match l with
    | [] =>
      rw [containsSub] at hc
      have : pat = [] := by
        cases pat with
        | nil => rfl
        | cons a as => simp [List.isPrefixOf] at hc
      subst this
      simp at hlen
    | c :: rest =>
      rw [replaceSub]
      split
      next h =>
        simp only [Bool.and_eq_true, decide_eq_true_eq] at h
        have hpre : pat <+: c :: rest := List.isPrefixOf_iff_prefix.mp h.2
        have hple : pat.length ≤ (c :: rest).length := hpre.length_le
        have hrec := replaceSub_length pat rep (Nat.le_of_lt hlen) f ((c :: rest).drop pat.length)
        have hpat0 : 0 < pat.length := by
          cases pat with
          | nil => exact absurd rfl h.1
          | cons a as => simp
        simp only [List.length_append, List.length_drop] at *
        omega
      next h =>
        rw [containsSub, Bool.or_eq_true] at hc
        rcases hc with hc | hc
        · by_cases hpat : pat = []
          · subst hpat; simp at hlen
          · exact absurd (by simp [hpat, hc] : (decide ¬pat = [] && pat.isPrefixOf (c :: rest)) = true) h
        · have hrec := ih rest (by simp at hf; omega) hc
          simp only [List.length_cons]
          omega

theorem containsSub_tail {w : List Char} {c : Char} {rest : List Char}
    (h : containsSub w rest = true) : containsSub w (c :: rest) = true := by
  rw [containsSub, Bool.or_eq_true]
  exact Or.inr h

theorem containsSub_of_isPrefixOf {w l : List Char} (h : w.isPrefixOf l = true) :
    containsSub w l = true := by
  cases l with
  | nil => rw [containsSub]; exact h
  | cons c rest => rw [containsSub, Bool.or_eq_true]; exact Or.inl h

theorem containsSub_append_left {w t s : List Char} (h : containsSub w t = true) :
    containsSub w (t ++ s) = true := by
  induction t with
  | nil =>
    rw [containsSub] at h
    have hw : w = [] := by
      cases w with
      | nil => rfl
      | cons a as => simp [List.isPrefixOf] at h
    subst hw
    cases s <;> simp [containsSub, List.isPrefixOf]
  | cons c t' ih =>
    rw [containsSub, Bool.or_eq_true] at h
    rcases h with h | h
    · apply containsSub_of_isPrefixOf
      exact List.isPrefixOf_iff_prefix.mpr
        ((List.isPrefixOf_iff_prefix.mp h).trans ⟨s, by simp⟩)
    · exact containsSub_tail (ih h)

theorem containsSub_of_prefix {w t l : List Char} (hp : t <+: l)
    (h : containsSub w t = true) : containsSub w l = true := by
  obtain ⟨s, rfl⟩ := hp
  exact containsSub_append_left h

theorem containsSub_drop {w : List Char} :
    ∀ (k : Nat) (l : List Char), containsSub w (l.drop k) = true → containsSub w l = true := by
  intro k
  induction k with
  | zero => intro l h; simpa using h
  | succ n ih =>
    intro l h
    cases l with
    | nil => simpa using h
    | cons c rest => exact containsSub_tail (ih rest h)

theorem containsSub_of_tail {w l : List Char} (h : containsSub w l.tail = true) :
    containsSub w l = true := by
  cases l with
  | nil => simpa using h
  | cons c rest => exact containsSub_tail h

theorem containsSub_dropLast {w l : List Char} (h : containsSub w l.dropLast = true) :
    containsSub w l = true :=
  containsSub_of_prefix (List.dropLast_prefix l) h

theorem containsSub_alpha_append {w r x : List Char} (hw : ∀ c ∈ w, c.isAlpha = true)
    (hr : ∀ c ∈ r, c.isAlpha = false) (hne : w ≠ [])
    (h : containsSub w (r ++ x) = true) : containsSub w x = true := by
  induction r with
  | nil => simpa using h
  | cons c r' ih =>
    rw [List.cons_append, containsSub, Bool.or_eq_true] at h
    rcases h with h | h
    · cases w with
      | nil => exact absurd rfl hne
      | cons w0 w' =>
        simp only [List.isPrefixOf, Bool.and_eq_true, beq_iff_eq] at h
        have hw0 : w0.isAlpha = true := hw w0 (by simp)
        have hc : c.isAlpha = false := hr c (by simp)
        rw [h.1] at hw0
        rw [hw0] at hc
        exact absurd hc (by simp)
    · exact ih (fun d hd => hr d (by simp [hd])) h

theorem isPrefixOf_alpha_replaceSub (pat rep : List Char)
    (hrep : rep ≠ []) (hrh : ∀ c ∈ rep, c.isAlpha = false) :
    ∀ (fuel : Nat) (l w2 : List Char), (∀ c ∈ w2, c.isAlpha = true) →
      w2.isPrefixOf (replaceSub pat rep fuel l) = true → w2.isPrefixOf l = true := by
  intro fuel
  induction fuel with
  | zero => intro l w2 _ h; exact h
  | succ f ih =>
    intro l w2 hw2 h
    match l with
    | [] => exact h
    | c :: rest =>
      rw [replaceSub] at h
      split at h
      next =>
        cases w2 with
        | nil => simp [List.isPrefixOf]
        | cons a w2' =>
          cases rep with
          | nil => exact absurd rfl hrep
          | cons r0 r' =>
            simp only [List.cons_append, List.isPrefixOf, Bool.and_eq_true, beq_iff_eq] at h
            have ha : a.isAlpha = true := hw2 a (by simp)
            have hr0 : r0.isAlpha = false := hrh r0 (by simp)
            rw [h.1] at ha
            rw [ha] at hr0
            exact absurd hr0 (by simp)
      next =>
        cases w2 with
        | nil => simp [List.isPrefixOf]
        | cons a w2' =>
          simp only [List.isPrefixOf, Bool.and_eq_true, beq_iff_eq] at h ⊢
          exact ⟨h.1, ih rest w2' (fun x hx => hw2 x (by simp [hx])) h.2⟩

theorem containsSub_replaceSub (pat rep w : List Char)
    (hw : ∀ c ∈ w, c.isAlpha = true) (hwne : w ≠ [])
    (hrh : ∀ c ∈ rep, c.isAlpha = false) (hrne : rep ≠ []) :
    ∀ (fuel : Nat) (l : List Char),
      containsSub w (replaceSub pat rep fuel l) = true → containsSub w l = true := by
  intro fuel
  induction fuel with
  | zero => intro l h; exact h
  | succ f ih =>
    intro l h
    match l with
    | [] => exact h
    | c :: rest =>
      rw [replaceSub] at h
      split at h
      next =>
        exact containsSub_drop pat.length _ (ih _ (containsSub_alpha_append hw hrh hwne h))
      next =>
        rw [containsSub, Bool.or_eq_true] at h
        rcases h with h | h
        · cases w with
          | nil => exact absurd rfl hwne
          | cons a w' =>
            simp only [List.isPrefixOf, Bool.and_eq_true, beq_iff_eq] at h
            have hpre := isPrefixOf_alpha_replaceSub pat rep hrne hrh f rest w'
              (fun x hx => hw x (by simp [hx])) h.2
            exact containsSub_of_isPrefixOf
              (by simp [List.isPrefixOf, h.1, hpre] : (a :: w').isPrefixOf (c :: rest) = true)
        · exact containsSub_tail (ih rest h)

theorem mem_replaceSub (pat rep : List Char) :
    ∀ (fuel : Nat) (l : List Char) (c : Char),
      c ∈ replaceSub pat rep fuel l → c ∈ l ∨ c ∈ rep := by
  intro fuel
  induction fuel with
  | zero => intro l c h; exact Or.inl h
  | succ f ih =>
    intro l c h
    match l with
    | [] => exact Or.inl h
    | c0 :: rest =>
      rw [replaceSub] at h
      split at h
      next =>
        rcases List.mem_append.mp h with h | h
        · exact Or.inr h
        · rcases ih _ c h with h | h
          · exact Or.inl (List.mem_of_mem_drop h)
          · exact Or.inr h
      next =>
        rcases List.mem_cons.mp h with h | h
        · exact Or.inl (by simp [h])
        · rcases ih rest c h with h | h
          · exact Or.inl (List.mem_cons_of_mem _ h)
          · exact Or.inr h

theorem noContains_of_mono {w m l : List Char}
    (hsub : containsSub w m = true → containsSub w l = true)
    (h : containsSub w l = false) : containsSub w m = false := by
  cases hc : containsSub w m with
  | false => rfl
  | true => rw [hsub hc] at h; cases h

theorem noContains_replaceAll {pat rep w l : List Char}
    (hw : ∀ c ∈ w, c.isAlpha = true) (hwne : w ≠ [])
    (hrh : ∀ c ∈ rep, c.isAlpha = false) (hrne : rep ≠ [])
    (h : containsSub w l = false) : containsSub w (replaceAll pat rep l) = false :=
  noContains_of_mono (containsSub_replaceSub pat rep w hw hwne hrh hrne _ l) h

theorem noContains_collapseRound {w l : List Char}
    (hw : ∀ c ∈ w, c.isAlpha = true) (hwne : w ≠ [])
    (h : containsSub w l = false) : containsSub w (collapseRound l) = false := by
  simp only [collapseRound, signPairTable, List.foldl]
  exact noContains_replaceAll hw hwne (by decide) (by simp)
    (noContains_replaceAll hw hwne (by decide) (by simp)
      (noContains_replaceAll hw hwne (by decide) (by simp)
        (noContains_replaceAll hw hwne (by decide) (by simp) h)))

theorem noContains_collapseSigns {w : List Char}
    (hw : ∀ c ∈ w, c.isAlpha = true) (hwne : w ≠ []) :
    ∀ (fuel : Nat) (l : List Char), containsSub w l = false →
      containsSub w (collapseSigns fuel l) = false := by
  intro fuel
  induction fuel with
  | zero => intro l h; exact h
  | succ f ih =>
    intro l h
    rw [collapseSigns]
    split
    · exact ih _ (noContains_collapseRound hw hwne h)
    · exact h

theorem containsSub_dropLeadPlus {w l : List Char}
    (h : containsSub w (dropLeadPlus l) = true) : containsSub w l = true := by
  cases l with
  | nil => simpa [dropLeadPlus] using h
  | cons c rest =>
    rw [dropLeadPlus] at h
    split at h
    · exact containsSub_tail h
    · exact h

theorem noContains_removeRedundantSigns {w l : List Char}
    (hw : ∀ c ∈ w, c.isAlpha = true) (hwne : w ≠ [])
    (h : containsSub w l = false) :
    containsSub w (removeRedundantSigns l) = false := by
  rw [removeRedundantSigns]
  apply noContains_replaceAll hw hwne (by decide) (by simp)
  exact noContains_of_mono containsSub_dropLeadPlus
    (noContains_collapseSigns hw hwne _ l h)

theorem noContains_removeOuter {w : List Char}
    (_hw : ∀ c ∈ w, c.isAlpha = true) (_hwne : w ≠ []) :
    ∀ (fuel : Nat) (l : List Char), containsSub w l = false →
      containsSub w (removeOuter fuel l) = false := by
  intro fuel
  induction fuel with
  | zero => intro l h; exact h
  | succ f ih =>
    intro l h
    rw [removeOuter]
    split
    · refine ih _ (noContains_of_mono (fun hc => ?_) h)
      exact containsSub_of_tail (containsSub_dropLast hc)
    · exact h

theorem noWs_removeWhite (l : List Char) : noWsB (removeWhite l) = true := by
  rw [noWsB, List.all_eq_true]
  intro c hc
  have := (List.mem_filter.mp hc).2
  simpa using this

theorem removeWhite_of_noWs {l : List Char} (h : noWsB l = true) : removeWhite l = l := by
  rw [removeWhite, List.filter_eq_self]
  rw [noWsB, List.all_eq_true] at h
  exact h

theorem noWs_replaceAll {pat rep l : List Char} (hrep : ∀ c ∈ rep, wsChar c = false)
    (h : noWsB l = true) : noWsB (replaceAll pat rep l) = true := by
  rw [noWsB, List.all_eq_true] at h ⊢
  intro c hc
  rcases mem_replaceSub pat rep _ l c hc with hm | hm
  · exact h c hm
  · simp [hrep c hm]

theorem noWs_collapseRound {l : List Char} (h : noWsB l = true) :
    noWsB (collapseRound l) = true := by
  simp only [collapseRound, signPairTable, List.foldl]
  exact noWs_replaceAll (by decide)
    (noWs_replaceAll (by decide)
      (noWs_replaceAll (by decide)
        (noWs_replaceAll (by decide) h)))

theorem noWs_collapseSigns :
    ∀ (fuel : Nat) (l : List Char), noWsB l = true → noWsB (collapseSigns fuel l) = true := by
  intro fuel
  induction fuel with
  | zero => intro l h; exact h
  | succ f ih =>
    intro l h
    rw [collapseSigns]
    split
    · exact ih _ (noWs_collapseRound h)
    · exact h

theorem noWs_of_sublist {m l : List Char} (hs : m.Sublist l) (h : noWsB l = true) :
    noWsB m = true := by
  rw [noWsB, List.all_eq_true] at h ⊢
  intro c hc
  exact h c (hs.subset hc)

theorem noWs_dropLeadPlus {l : List Char} (h : noWsB l = true) :
    noWsB (dropLeadPlus l) = true := by
  cases l with
  | nil => exact h
  | cons c rest =>
    rw [dropLeadPlus]
    split
    · exact noWs_of_sublist (List.sublist_cons_self c rest) h
    · exact h

theorem noWs_removeRedundantSigns {l : List Char} (h : noWsB l = true) :
    noWsB (removeRedundantSigns l) = true := by
  rw [removeRedundantSigns]
  exact noWs_replaceAll (by decide) (noWs_dropLeadPlus (noWs_collapseSigns (l.length + 1) l h))

theorem noWs_removeOuter :
    ∀ (fuel : Nat) (l : List Char), noWsB l = true → noWsB (removeOuter fuel l) = true := by
  intro fuel
  induction fuel with
  | zero => intro l h; exact h
  | succ f ih =>
    intro l h
    rw [removeOuter]
    split
    · exact ih _ (noWs_of_sublist ((List.dropLast_sublist _).trans (List.tail_sublist l)) h)
    · exact h

theorem removeWhite_length (l : List Char) : (removeWhite l).length ≤ l.length :=
  List.length_filter_le _ l

theorem removeWhite_ne_lt {l : List Char} (h : removeWhite l ≠ l) :
    (removeWhite l).length < l.length := by
  have hle := removeWhite_length l
  rcases Nat.lt_or_ge (removeWhite l).length l.length with hlt | hge
  · exact hlt
  · exact absurd (List.filter_eq_self.mpr
      (List.filter_length_eq_length.mp (le_antisymm hle hge))) h

theorem replaceAll_length (pat rep : List Char) (hlen : rep.length ≤ pat.length)
    (l : List Char) : (replaceAll pat rep l).length ≤ l.length :=
  replaceSub_length pat rep hlen l.length l

theorem replaceAll_lt (pat rep : List Char) (hlen : rep.length < pat.length)
    {l : List Char} (hc : containsSub pat l = true) :
    (replaceAll pat rep l).length < l.length :=
  replaceSub_length_lt pat rep hlen l.length l (le_refl _) hc

theorem replaceAll_of_not_contains (pat rep : List Char) {l : List Char}
    (h : containsSub pat l = false) : replaceAll pat rep l = l :=
  replaceSub_of_not_contains pat rep l.length l h

theorem collapseRound_length (l : List Char) : (collapseRound l).length ≤ l.length := by
  simp only [collapseRound, signPairTable, List.foldl]
  have h1 := replaceAll_length ['-', '-'] ['+'] (by simp) l
  have h2 := replaceAll_length ['-', '+'] ['-'] (by simp) (replaceAll ['-', '-'] ['+'] l)
  have h3 := replaceAll_length ['+', '-'] ['-'] (by simp)
    (replaceAll ['-', '+'] ['-'] (replaceAll ['-', '-'] ['+'] l))
  have h4 := replaceAll_length ['+', '+'] ['+'] (by simp)
    (replaceAll ['+', '-'] ['-'] (replaceAll ['-', '+'] ['-'] (replaceAll ['-', '-'] ['+'] l)))
  omega

theorem hasAdjSigns_contains {l : List Char} (h : hasAdjSigns l = true) :
    containsSub ['-', '-'] l = true ∨ containsSub ['-', '+'] l = true ∨
      containsSub ['+', '-'] l = true ∨ containsSub ['+', '+'] l = true := by
  induction l with
  | nil => cases h
  | cons a rest ih =>
    cases rest with
    | nil => cases h
    | cons b rest2 =>
      rw [hasAdjSigns, Bool.or_eq_true] at h
      rcases h with h | h
      · rw [Bool.and_eq_true] at h
        have ha := h.1
        have hb := h.2
        rw [isSign, Bool.or_eq_true, decide_eq_true_eq, decide_eq_true_eq] at ha hb
        rcases ha with ha | ha <;> rcases hb with hb | hb <;>
          subst ha <;> subst hb <;>
          simp [containsSub, List.isPrefixOf]
      · rcases ih h with h2 | h2 | h2 | h2
        · exact Or.inl (containsSub_tail h2)
        · exact Or.inr (Or.inl (containsSub_tail h2))
        · exact Or.inr (Or.inr (Or.inl (containsSub_tail h2)))
        · exact Or.inr (Or.inr (Or.inr (containsSub_tail h2)))

theorem collapseRound_length_lt {l : List Char} (h : hasAdjSigns l = true) :
    (collapseRound l).length < l.length := by
  simp only [collapseRound, signPairTable, List.foldl]
  cases h1 : containsSub ['-', '-'] l with
  | true =>
    have a1 := replaceAll_lt ['-', '-'] ['+'] (by simp) h1
    have a2 := replaceAll_length ['-', '+'] ['-'] (by simp) (replaceAll ['-', '-'] ['+'] l)
    have a3 := replaceAll_length ['+', '-'] ['-'] (by simp)
      (replaceAll ['-', '+'] ['-'] (replaceAll ['-', '-'] ['+'] l))
    have a4 := replaceAll_length ['+', '+'] ['+'] (by simp)
      (replaceAll ['+', '-'] ['-'] (replaceAll ['-', '+'] ['-'] (replaceAll ['-', '-'] ['+'] l)))
    omega
  | false =>
    rw [replaceAll_of_not_contains ['-', '-'] ['+'] h1]
    cases h2 : containsSub ['-', '+'] l with
    | true =>
      have a2 := replaceAll_lt ['-', '+'] ['-'] (by simp) h2
      have a3 := replaceAll_length ['+', '-'] ['-'] (by simp) (replaceAll ['-', '+'] ['-'] l)
      have a4 := replaceAll_length ['+', '+'] ['+'] (by simp)
        (replaceAll ['+', '-'] ['-'] (replaceAll ['-', '+'] ['-'] l))
      omega
    | false =>
      rw [replaceAll_of_not_contains ['-', '+'] ['-'] h2]
      cases h3 : containsSub ['+', '-'] l with
      | true =>
        have a3 := replaceAll_lt ['+', '-'] ['-'] (by simp) h3
        have a4 := replaceAll_length ['+', '+'] ['+'] (by simp) (replaceAll ['+', '-'] ['-'] l)
        omega
      | false =>
        rw [replaceAll_of_not_contains ['+', '-'] ['-'] h3]
        have h4 : containsSub ['+', '+'] l = true := by
          rcases hasAdjSigns_contains h with hc | hc | hc | hc
          · rw [h1] at hc; cases hc
          · rw [h2] at hc; cases hc
          · rw [h3] at hc; cases hc
          · exact hc
        exact replaceAll_lt ['+', '+'] ['+'] (by simp) h4

theorem collapseSigns_length :
    ∀ (fuel : Nat) (l : List Char), (collapseSigns fuel l).length ≤ l.length := by
  intro fuel
  induction fuel with
  | zero => intro l; exact le_refl _
  | succ f ih =>
    intro l
    rw [collapseSigns]
    split
    · exact le_trans (ih _) (collapseRound_length l)
    · exact le_refl _

theorem collapseSigns_ne_lt :
    ∀ (fuel : Nat) (l : List Char), collapseSigns fuel l ≠ l →
      (collapseSigns fuel l).length < l.length := by
  intro fuel
  induction fuel with
  | zero => intro l h; exact absurd rfl h
  | succ f ih =>
    intro l h
    rw [collapseSigns] at h ⊢
    by_cases hadj : hasAdjSigns l = true
    · rw [if_pos hadj]
      exact lt_of_le_of_lt (collapseSigns_length f _) (collapseRound_length_lt hadj)
    · rw [if_neg hadj] at h
      exact absurd rfl h

theorem dropLeadPlus_length (l : List Char) : (dropLeadPlus l).length ≤ l.length := by
  cases l with
  | nil => exact le_refl _
  | cons c rest =>
    rw [dropLeadPlus]
    split
    · simp
    · exact le_refl _

theorem dropLeadPlus_ne_lt {l : List Char} (h : dropLeadPlus l ≠ l) :
    (dropLeadPlus l).length < l.length := by
  cases l with
  | nil => exact absurd rfl h
  | cons c rest =>
    rw [dropLeadPlus] at h ⊢
    by_cases hc : c = '+'
    · rw [if_pos hc]
      simp
    · rw [if_neg hc] at h
      exact absurd rfl h

theorem removeRedundantSigns_length (l : List Char) :
    (removeRedundantSigns l).length ≤ l.length := by
  rw [removeRedundantSigns]
  exact le_trans (replaceAll_length _ _ (by simp) _)
    (le_trans (dropLeadPlus_length _) (collapseSigns_length _ l))

theorem removeRedundantSigns_ne_lt {l : List Char} (h : removeRedundantSigns l ≠ l) :
    (removeRedundantSigns l).length < l.length := by
  rw [removeRedundantSigns] at h ⊢
  by_cases h1 : collapseSigns (l.length + 1) l = l
  · rw [h1] at h ⊢
    by_cases h2 : dropLeadPlus l = l
    · rw [h2] at h ⊢
      have h3 : containsSub ['(', '+'] l = true := by
        cases hc : containsSub ['(', '+'] l with
        | true => rfl
        | false => exact absurd (replaceAll_of_not_contains _ _ hc) h
      exact replaceAll_lt _ _ (by simp) h3
    · exact lt_of_le_of_lt (replaceAll_length _ _ (by simp) _) (dropLeadPlus_ne_lt h2)
  · exact lt_of_le_of_lt (le_trans (replaceAll_length _ _ (by simp) _)
      (dropLeadPlus_length _)) (collapseSigns_ne_lt _ l h1)

theorem removeOuter_length :
    ∀ (fuel : Nat) (l : List Char), (removeOuter fuel l).length ≤ l.length := by
  intro fuel
  induction fuel with
  | zero => intro l; exact le_refl _
  | succ f ih =>
    intro l
    rw [removeOuter]
    split
    · refine le_trans (ih _) ?_
      have h1 := List.length_dropLast l.tail
      have h2 := List.length_tail l
      omega
    · exact le_refl _

theorem removeOuter_ne_lt :
    ∀ (fuel : Nat) (l : List Char), removeOuter fuel l ≠ l →
      (removeOuter fuel l).length < l.length := by
  intro fuel
  induction fuel with
  | zero => intro l h; exact absurd rfl h
  | succ f ih =>
    intro l h
    rw [removeOuter] at h ⊢
    by_cases hw : isWrappedIn '(' ')' l = true
    · rw [if_pos hw]
      rw [isWrappedIn, Bool.and_eq_true, decide_eq_true_eq] at hw
      have h1 := removeOuter_length f l.tail.dropLast
      have h2 := List.length_dropLast l.tail
      have h3 := List.length_tail l
      omega
    · rw [if_neg hw] at h
      exact absurd rfl h

theorem stepBase_ne_lt (l : List Char) (h : stepBase l ≠ l) :
    (stepBase l).length < l.length := by
  rw [stepBase] at h ⊢
  by_cases h1 : removeWhite l = l
  · rw [h1] at h ⊢
    by_cases h2 : removeRedundantSigns l = l
    · rw [h2] at h ⊢
      exact removeOuter_ne_lt _ _ h
    · exact lt_of_le_of_lt (removeOuter_length _ _) (removeRedundantSigns_ne_lt h2)
  · exact lt_of_le_of_lt (le_trans (removeOuter_length _ _)
      (removeRedundantSigns_length _)) (removeWhite_ne_lt h1)

theorem fixLoop_preserves (step : List Char → List Char) (p : List Char → Bool)
    (hstep : ∀ m, p m = true → p (step m) = true) :
    ∀ (fuel : Nat) (l : List Char), p l = true → p (fixLoop step fuel l) = true := by
  intro fuel
  induction fuel with
  | zero => intro l h; exact h
  | succ f ih =>
    intro l h
    rw [fixLoop]
    split
    · exact h
    · exact ih _ (hstep l h)

theorem fixLoop_fix (step : List Char → List Char)
    (hsh : ∀ m, step m ≠ m → (step m).length < m.length) :
    ∀ (fuel : Nat) (l : List Char), l.length < fuel →
      step (fixLoop step fuel l) = fixLoop step fuel l := by
  intro fuel
  induction fuel with
  | zero => intro l h; omega
  | succ f ih =>
    intro l h
    rw [fixLoop]
    split
    next he => exact he
    next hne =>
      refine ih _ ?_
      have := hsh l (fun e => hne e)
      omega

theorem fixLoop_of_fixpoint (step : List Char → List Char) {l : List Char}
    (h : step l = l) : ∀ (fuel : Nat), fixLoop step fuel l = l := by
  intro fuel
  cases fuel with
  | zero => rfl
  | succ f =>
    rw [fixLoop]
    simp [h]

theorem boundMatch_contains (sp : List Char) :
    ∀ (prev : Option Char) (l : List Char), boundMatchGo sp prev l = true →
      containsSub sp l = true := by
  intro prev l
  induction l generalizing prev with
  | nil => intro h; cases h
  | cons c rest ih =>
    intro h
    rw [boundMatchGo, Bool.or_eq_true] at h
    rcases h with h | h
    · rw [Bool.and_eq_true, Bool.and_eq_true] at h
      exact containsSub_of_isPrefixOf h.1.1
    · exact containsSub_tail (ih (some c) h)

theorem substSpecials_of_noInfNan {l : List Char} (h : noInfNanB l = true) :
    substSpecialsBase l = (l, []) := by
  rw [noInfNanB, Bool.and_eq_true, Bool.not_eq_true', Bool.not_eq_true'] at h
  have hb1 : hasBoundMatch ['i', 'n', 'f'] l = false := by
    cases hb : hasBoundMatch ['i', 'n', 'f'] l with
    | false => rfl
    | true => rw [boundMatch_contains _ none l hb] at h; cases h.1
  have hb2 : hasBoundMatch ['n', 'a', 'n'] l = false := by
    cases hb : hasBoundMatch ['n', 'a', 'n'] l with
    | false => rfl
    | true => rw [boundMatch_contains _ none l hb] at h; cases h.2
  simp [substSpecialsBase, specials, hb1, hb2]

theorem stepBase_preserves_inv (m : List Char)
    (h : (noWsB m && noInfNanB m) = true) :
    (noWsB (stepBase m) && noInfNanB (stepBase m)) = true := by
  rw [Bool.and_eq_true] at h ⊢
  obtain ⟨h1, h2⟩ := h
  rw [noInfNanB, Bool.and_eq_true, Bool.not_eq_true', Bool.not_eq_true'] at h2
  rw [stepBase, removeWhite_of_noWs h1]
  constructor
  · exact noWs_removeOuter _ _ (noWs_removeRedundantSigns h1)
  · rw [noInfNanB, Bool.and_eq_true, Bool.not_eq_true', Bool.not_eq_true']
    constructor
    · exact noContains_removeOuter (by decide) (by simp) _ _
        (noContains_removeRedundantSigns (by decide) (by simp) h2.1)
    · exact noContains_removeOuter (by decide) (by simp) _ _
        (noContains_removeRedundantSigns (by decide) (by simp) h2.2)

theorem canonicalize_plain {l : List Char} (h : substSpecialsBase l = (l, [])) :
    canonicalize l = fixLoop stepBase (l.length + 1) l := by
  simp only [canonicalize]
  rw [h]
  rfl

/-! ## Claim theorems -/

/-- C1 counterexample.  The spec asserts `parse("2+3*4").value() == 8`; on
the code the split happens at the depth-zero `+` first, so the value is
`2 + 3*4 = 14`, not `8`. -/
theorem claim1_counterexample :
    parseValue "2+3*4".toList = Except.ok (Except.ok (fOfInt 14, fOfInt 0)) ∧
      parseValue "2+3*4".toList ≠ Except.ok (Except.ok (fOfInt 8, fOfInt 0)) :=
  ⟨by decide, by decide⟩

/-- C1 amended: parsing `"2+3*4"` succeeds, the parser chooses `+` (the
first operator in ascending precedence order with a depth-zero
occurrence) as the node operator, splitting into the children `2` and
`3*4`, and the evaluator's fold yields `14` (not the spec's `8`). -/
theorem claim1_amended :
    (parseText "2+3*4".toList).map (fun e => (topOp e, childTexts e)) =
      Except.ok (some '+', [['2'], ['3', '*', '4']]) ∧
    parseValue "2+3*4".toList = Except.ok (Except.ok (fOfInt 14, fOfInt 0)) :=
  ⟨by decide, by decide⟩

/-- C2 counterexample.  For the syntactically valid text `"(2^3)^2"` the
parsed tree evaluates to `64`, but the renderer leaves the
equal-precedence composite child unwrapped, printing `2^3^2`, which
re-parses to the flat right-folded power `512`: the round trip changes
the value. -/
theorem claim2_counterexample :
    roundTripValues "(2^3)^2".toList =
      some (Except.ok (fOfInt 64, fOfInt 0), Except.ok (fOfInt 512, fOfInt 0)) ∧
    (Except.ok (fOfInt 64, fOfInt 0) : Except VErr CQ) ≠ Except.ok (fOfInt 512, fOfInt 0) ∧
    (parseText "(2^3)^2".toList).map (renderN 60) = Except.ok "2^3^2".toList :=
  ⟨by decide, by decide, by decide⟩

/-- C2 amended: the bracket-insertion rules preserve the evaluated value
through render-and-re-parse when every composite child is either wrapped
or of precedence at least its parent's with a value-preserving split — in
particular on the spec's own evaluation examples — but not universally:
a composite child of equal precedence (nested `^`) is left unwrapped and
the round trip changes `64` into `512`. -/
theorem claim2_amended :
    roundTripValues "2+3*4".toList =
      some (Except.ok (fOfInt 14, fOfInt 0), Except.ok (fOfInt 14, fOfInt 0)) ∧
    roundTripValues "(2+3)*4".toList =
      some (Except.ok (fOfInt 20, fOfInt 0), Except.ok (fOfInt 20, fOfInt 0)) ∧
    roundTripValues "2^3^2".toList =
      some (Except.ok (fOfInt 512, fOfInt 0), Except.ok (fOfInt 512, fOfInt 0)) :=
  ⟨by decide, by decide, by decide⟩

/-- C10: evaluation of a `^` composite is the right fold of the source
(children processed in reverse order, each child's value becoming the
base raised to the accumulator), and consequently `parse("2^3^2")`
evaluates to `512` — right-associative — and not to `64`. -/
theorem claim10_power_rightfold :
    (∀ (cs : List NExp) (fuel : Nat),
        valueN (fuel + 1) (NExp.comp '^' cs) =
          cs.reverse.foldlM (fun acc e => do cPow (← valueN fuel e) acc) cOne) ∧
    parseValue "2^3^2".toList = Except.ok (Except.ok (fOfInt 512, fOfInt 0)) ∧
    parseValue "2^3^2".toList ≠ Except.ok (Except.ok (fOfInt 64, fOfInt 0)) :=
  ⟨fun _ _ => rfl, by decide, by decide⟩

/-- C3: the two claim intervals construct as `(0,5]` and `[5,10)`; their
classification is the shared-closed-endpoint case; but the
single-point result is rebuilt through `DiscreteAlgSet(u1)` with the raw
float bound, and `AlgSet._filter_number` hands `initializer` the
candidate classes as one tuple, so the call raises `TypeError` instead of
returning `{5}`.  With the evident intended filter the result is the
discrete singleton `{5}` claimed by the spec. -/
theorem claim3_divergence :
    mkInterval filterSrc (FilterIn.exp (snum 0)) (FilterIn.exp (snum 5)) false true =
      Except.ok i05rc ∧
    mkInterval filterSrc (FilterIn.exp (snum 5)) (FilterIn.exp (snum 10)) true false =
      Except.ok i510lc ∧
    intersectionType i05rc i510lc = IType.oneNumber ∧
    intersectFold filterSrc [SetVal.si i05rc, SetVal.si i510lc] =
      Except.error SErr.tupleCallTypeError ∧
    intersectFold filterIntended [SetVal.si i05rc, SetVal.si i510lc] =
      Except.ok (SetVal.sd [⟨XR.fin 5, XR.fin 0, false⟩]) :=
  ⟨by decide, by decide, by decide, by decide, by decide⟩

/-- C4: the left-to-right fold `union(D{1}, (0,1), (1,2))` first absorbs
the point into `(0,1]`, then `union((0,1], (1,2))` builds a `UnionAlgSet`
whose simplification merges the two intervals into one — crashing in the
merged-interval reconstruction (the `_filter_number` tuple slip), and
even with the intended filter failing the union's at-least-two-sets
assertion rather than returning `(0,2)`.  The bridged interval `(0,2)`
the code's own comment documents is produced only on the
discrete-last argument order with the intended filter. -/
theorem claim4_divergence :
    unionFold filterSrc [SetVal.sd dOne, SetVal.si i01, SetVal.si i12] =
      Except.error SErr.tupleCallTypeError ∧
    unionFold filterIntended [SetVal.sd dOne, SetVal.si i01, SetVal.si i12] =
      Except.error SErr.atLeastTwoSetsInUnion ∧
    unionFold filterIntended [SetVal.si i01, SetVal.si i12, SetVal.sd dOne] =
      Except.ok (SetVal.si ⟨snum 0, snum 2, false, false⟩) :=
  ⟨by decide, by decide, by decide⟩

/-- C5 counterexample: constructing a `UnionAlgSet` from `{1}` and `(0,1)`
— arguments that simplify to the single interval `(0,1]` — fails the
at-least-two-sets assertion instead of returning that `IntervalAlgSet`. -/
theorem claim5_counterexample :
    mkUnion filterSrc [SetPart.pd dOne, SetPart.pi i01] =
      Except.error SErr.atLeastTwoSetsInUnion :=
  by decide

/-- C5 amended: the `UnionAlgSet` constructor has no collapse path
returning an `IntervalAlgSet` — after simplifying its parts it asserts
that at least two sets remain — so arguments simplifying to a single
interval fail construction, with a failure kind that depends on the
route.  The point-absorption instance `{1}, (0,1)` fails the
at-least-two-sets assertion, an `InvalidSetConstruction`-kind error; the
overlap-merge instance `(0,2), (1,3)` crashes earlier, in the
merged-interval rebuild, with the uncaught tuple-call `TypeError` — not
of that kind — and reaches the same assertion only under the intended
filter.  The collapse to the single `IntervalSet` is performed by the
`union()` caller paths instead: `union({1}, (0,1)) = (0,1]`. -/
theorem claim5_amended :
    (mkUnion filterSrc [SetPart.pd dOne, SetPart.pi i01] =
        Except.error SErr.atLeastTwoSetsInUnion ∧
      isInvalidSetConstruction SErr.atLeastTwoSetsInUnion = true) ∧
    (mkUnion filterSrc [SetPart.pi i02, SetPart.pi i13] =
        Except.error SErr.tupleCallTypeError ∧
      isInvalidSetConstruction SErr.tupleCallTypeError = false ∧
      mkUnion filterIntended [SetPart.pi i02, SetPart.pi i13] =
        Except.error SErr.atLeastTwoSetsInUnion) ∧
    unionFold filterSrc [SetVal.sd dOne, SetVal.si i01] =
      Except.ok (SetVal.si ⟨snum 0, snum 1, false, true⟩) :=
  ⟨⟨by decide, by decide⟩, ⟨by decide, by decide, by decide⟩, by decide⟩

/-- C6: substituting `5` for `x` in `y*(x+1)` mutates the original
expression: the copied root shares its children with the original
(`content[:]` is a shallow copy), and the recursive substitution assigns
into the shared inner composite, so after the call the original renders
`y*(5+1)` instead of `y*(x+1)`. -/
theorem claim6_divergence :
    renderH heapYX1 30 4 = "y*(x+1)".toList ∧
    renderH (substituteRoot heapYX1 4 1 ['5']).1 30 4 = "y*(5+1)".toList ∧
    "y*(5+1)".toList ≠ "y*(x+1)".toList :=
  ⟨by decide, by decide, by decide⟩

/-- C7: for any expression whose variable list contains `x` with domain
`[0, 10]`, the substitution check accepts `5`, accepts `10` (closed
boundary), and rejects `11` with the `NotInDomain` error. -/
theorem claim7_domain_substitution (vars : List (List Char))
    (domains : List Char → IntervalSet)
    (hx : vars.contains ['x'] = true) (hd : domains ['x'] = dom010) :
    substituteCheck vars domains ['x'] (snum 5) = Except.ok true ∧
    substituteCheck vars domains ['x'] (snum 10) = Except.ok true ∧
    substituteCheck vars domains ['x'] (snum 11) = Except.error SubErr.notInDomain := by
  unfold substituteCheck
  rw [hx, hd]
  exact ⟨by decide, by decide, by decide⟩

/-- Witness for C7 at the concrete expression data `vars = [x]`,
`domains = (fun _ => [0,10])`. -/
theorem claim7_domain_substitution_witness :
    [['x']].contains ['x'] = true ∧
    substituteCheck [['x']] (fun _ => dom010) ['x'] (snum 5) = Except.ok true ∧
    substituteCheck [['x']] (fun _ => dom010) ['x'] (snum 10) = Except.ok true ∧
    substituteCheck [['x']] (fun _ => dom010) ['x'] (snum 11) =
      Except.error SubErr.notInDomain := by
  refine ⟨by decide, ?_⟩
  exact claim7_domain_substitution [['x']] (fun _ => dom010) (by decide) rfl

/-- C9: for every pair of numeric-expression bounds with the lower bound's
real part strictly greater than the upper bound's, `IntervalAlgSet`
construction fails, and the failure is of the spec's
`InvalidSetConstruction` kind for every closedness combination (the
imaginary-part assert, or, for real bounds, the bound-ordering
assert). -/
theorem claim9_reversed_bounds (lo hi : SNum) (lc rc : Bool)
    (h : xlt hi.re lo.re = true) :
    ∃ e, mkInterval filterSrc (FilterIn.exp lo) (FilterIn.exp hi) lc rc = Except.error e ∧
      isInvalidSetConstruction e = true := by
  have hnanL : lo.re ≠ XR.nan := (xlt_ne_nan h).2
  have hnanH : hi.re ≠ XR.nan := (xlt_ne_nan h).1
  cases hL : lo.hasImag with
  | true =>
    refine ⟨SErr.cannotImag, ?_, rfl⟩
    simp [mkInterval, intervalFilterCtor, filterSrc, hL]
  | false =>
    cases hH : hi.hasImag with
    | true =>
      refine ⟨SErr.cannotImag, ?_, rfl⟩
      simp [mkInterval, intervalFilterCtor, filterSrc, hL, hH, xlt_zero_total hnanL]
    | false =>
      refine ⟨SErr.wrongOrdering, ?_, rfl⟩
      simp [mkInterval, intervalFilterCtor, filterSrc, hL, hH,
        xlt_zero_total hnanL, xlt_zero_total hnanH, xle_false_of_xlt h]

/-- Witness for C9 at the bounds `5 > 3`. -/
theorem claim9_reversed_bounds_witness :
    xlt (snum 3).re (snum 5).re = true ∧
    ∃ e, mkInterval filterSrc (FilterIn.exp (snum 5)) (FilterIn.exp (snum 3)) false false =
        Except.error e ∧ isInvalidSetConstruction e = true :=
  ⟨by decide, claim9_reversed_bounds (snum 5) (snum 3) false false (by decide)⟩

/-- C8 counterexample: canonicalization is not idempotent.  On
`")x inf x("` the first pass wraps the reserved literal in a bracketed
placeholder, removes the blanks, and restores the literal, yielding
`")xinfx("`; the second pass cannot re-protect the literal (it is now
letter-adjacent), sees the whole string as bracket-wrapped (the depth
sequence of `")xinfx("` has exactly one zero) and strips the outer
characters, yielding `"xinfx"`. -/
theorem claim8_counterexample :
    canonicalize ")x inf x(".toList = ")xinfx(".toList ∧
    canonicalize (canonicalize ")x inf x(".toList) = "xinfx".toList ∧
    "xinfx".toList ≠ ")xinfx(".toList :=
  ⟨by decide, by decide, by decide⟩

/-- C8 amended: on inputs that contain no whitespace and neither of
the reserved literals `inf` / `nan`, `AlgExp._correction` is idempotent:
the placeholder substitutions are no-ops, the `while` loop reaches a
fixed point of the base correction round (each productive round strictly
shortens the string), and a second `_correction` leaves that fixed point
unchanged. -/
theorem claim8_amended (l : List Char) (h1 : noWsB l = true)
    (h2 : noInfNanB l = true) :
    canonicalize (canonicalize l) = canonicalize l := by
  have hcan : canonicalize l = fixLoop stepBase (l.length + 1) l :=
    canonicalize_plain (substSpecials_of_noInfNan h2)
  have hinv : (noWsB (fixLoop stepBase (l.length + 1) l) &&
      noInfNanB (fixLoop stepBase (l.length + 1) l)) = true := by
    refine fixLoop_preserves stepBase _ stepBase_preserves_inv _ l ?_
    rw [Bool.and_eq_true]
    exact ⟨h1, h2⟩
  rw [Bool.and_eq_true] at hinv
  have hfix : stepBase (fixLoop stepBase (l.length + 1) l) =
      fixLoop stepBase (l.length + 1) l :=
    fixLoop_fix stepBase stepBase_ne_lt _ l (Nat.lt_succ_self _)
  rw [hcan, canonicalize_plain (substSpecials_of_noInfNan hinv.2)]
  exact fixLoop_of_fixpoint stepBase hfix _

theorem claim8_amended_witness :
    noWsB "(1+-2)".toList = true ∧ noInfNanB "(1+-2)".toList = true ∧
    canonicalize (canonicalize "(1+-2)".toList) = canonicalize "(1+-2)".toList :=
  ⟨by decide, by decide, claim8_amended _ (by decide) (by decide)⟩

end AlgebraTools
